import Mathlib

/-!
Verification model of the trypillia-language interpreter pipeline
(lexer, recursive-descent parser, semantic analyzer, tree-walking
evaluator).  Each definition is a shallow embedding of the
corresponding C++ entity; file/line references point into the
repository sources.  C++ `double` is modelled by `Rat`: every numeric
computation appearing in the verified claims is exact in both models.
Iteration and recursion in the C++ sources are modelled with explicit
fuel; wrappers supply a fuel that is proved sufficient, so the
embedded functions are total and computable.
-/

namespace Trypillia

/-! ## Token model (src/lexer/Lexer.h) -/

/-- Enumeration `TokenType` from Lexer.h, in declaration order. -/
inductive TokenType where
  | LPAREN | RPAREN | LBRACE | RBRACE | COMMA | DOT | SEMICOLON
  | PLUS | MINUS | STAR | SLASH
  | ASSIGN | EQUAL_EQUAL
  | BANG | BANG_EQUAL
  | LESS | LESS_EQUAL
  | GREATER | GREATER_EQUAL
  | IDENTIFIER | NUMBER | STRING
  | CLASS | FN | LET | VIRTUAL | OVERRIDE | PRINT | IF | ELSE | WHILE
  | END_OF_FILE | UNKNOWN
deriving DecidableEq, Repr

/-- Numeric value of each enumerator (used by Parser::consume messages,
which print `static_cast<int>(type)`). -/
def ttIdx : TokenType → Nat
  | .LPAREN => 0 | .RPAREN => 1 | .LBRACE => 2 | .RBRACE => 3
  | .COMMA => 4 | .DOT => 5 | .SEMICOLON => 6
  | .PLUS => 7 | .MINUS => 8 | .STAR => 9 | .SLASH => 10
  | .ASSIGN => 11 | .EQUAL_EQUAL => 12
  | .BANG => 13 | .BANG_EQUAL => 14
  | .LESS => 15 | .LESS_EQUAL => 16
  | .GREATER => 17 | .GREATER_EQUAL => 18
  | .IDENTIFIER => 19 | .NUMBER => 20 | .STRING => 21
  | .CLASS => 22 | .FN => 23 | .LET => 24 | .VIRTUAL => 25
  | .OVERRIDE => 26 | .PRINT => 27 | .IF => 28 | .ELSE => 29 | .WHILE => 30
  | .END_OF_FILE => 31 | .UNKNOWN => 32

/-- Struct `Token {type, lexeme, line}` from Lexer.h. -/
structure Token where
  type : TokenType
  lexeme : String
  line : Nat
deriving DecidableEq, Repr

/-! ## Lexer (src/unnamed/part_001, `Lexer`)

State of the scanner: the source (as a character list), the current
index and the current line, exactly the three fields of the C++ class.
-/

structure LexState where
  src : List Char
  i : Nat
  line : Nat
deriving Repr

/-- C++ `Lexer::isAtEnd`. -/
def lexIsAtEnd (s : LexState) : Bool := s.src.length ≤ s.i

/-- C++ `Lexer::peek` (returns the NUL character at end of input). -/
def lexPeek (s : LexState) : Char :=
  if h : s.i < s.src.length then s.src.get ⟨s.i, h⟩ else '\x00'

/-- C++ `Lexer::peekNext`. -/
def lexPeekNext (s : LexState) : Char :=
  if h : s.i + 1 < s.src.length then s.src.get ⟨s.i + 1, h⟩ else '\x00'

/-- Index advance performed by C++ `Lexer::advance` (the returned
character is read separately via `lexPeek`). -/
def lexAdv (s : LexState) : LexState := { s with i := s.i + 1 }

/-- C++ `Lexer::match(expected)`. -/
def lexMatch (expected : Char) (s : LexState) : Bool × LexState :=
  if lexIsAtEnd s then (false, s)
  else if lexPeek s = expected then (true, lexAdv s)
  else (false, s)

/-- ASCII `std::isalpha` (all sources in the grammar are ASCII). -/
def isAlphaCh (c : Char) : Bool :=
  ('A' ≤ c && c ≤ 'Z') || ('a' ≤ c && c ≤ 'z')

/-- ASCII `std::isdigit`. -/
def isDigitCh (c : Char) : Bool := '0' ≤ c && c ≤ '9'

/-- ASCII `std::isalnum`. -/
def isAlnumCh (c : Char) : Bool := isAlphaCh c || isDigitCh c

/-- Fueled form of the whitespace
loop of C++ `Lexer::skipWhitespace`: skip a space, carriage return or
tab, count the line on a newline, stop at anything else. -/
def skipWsF : Nat → LexState → LexState
  | 0, s => s
  | fuel + 1, s =>
    let c := lexPeek s
    if c = ' ' ∨ c = '\r' ∨ c = '\t' then skipWsF fuel (lexAdv s)
    else if c = '\n' then skipWsF fuel { s with i := s.i + 1, line := s.line + 1 }
    else s

/-- C++ `Lexer::skipWhitespace`; the fuel `length - i` is exactly the
number of characters that can still be consumed. -/
def skipWhitespace (s : LexState) : LexState := skipWsF (s.src.length - s.i) s

/-- Fueled scan-while loop: advance while the predicate holds at the
current state (used for the identifier/number/comment loops, each of
which consumes one character per iteration). -/
def scanWhileF : Nat → (LexState → Bool) → LexState → LexState
  | 0, _, s => s
  | fuel + 1, p, s => if p s then scanWhileF fuel p (lexAdv s) else s

/-- Fueled form of the string-literal loop of C++ `Lexer::string`,
which also counts lines inside the literal. -/
def scanStrF : Nat → LexState → LexState
  | 0, s => s
  | fuel + 1, s =>
    if lexPeek s = '"' then s
    else if lexIsAtEnd s then s
    else if lexPeek s = '\n' then scanStrF fuel { s with i := s.i + 1, line := s.line + 1 }
    else scanStrF fuel (lexAdv s)

/-- C++ `source.substr(start, stop - start)`: characters `[start, stop)`. -/
def sliceStr (src : List Char) (start stop : Nat) : String :=
  String.mk ((src.drop start).take (stop - start))

/-- Keyword table of the lexer (part_001, `keywords`). -/
def keywordLookup (text : String) : Option TokenType :=
  if text = "class" then some .CLASS
  else if text = "fn" then some .FN
  else if text = "let" then some .LET
  else if text = "virtual" then some .VIRTUAL
  else if text = "override" then some .OVERRIDE
  else if text = "print" then some .PRINT
  else if text = "if" then some .IF
  else if text = "else" then some .ELSE
  else if text = "while" then some .WHILE
  else none

/-- C++ `Lexer::identifier` (called after the first character was
consumed, so the lexeme starts at `s.i - 1`). -/
def identifierTok (s : LexState) : Token × LexState :=
  let start := s.i - 1
  let s1 := scanWhileF (s.src.length - s.i)
    (fun st => isAlnumCh (lexPeek st) || lexPeek st = '_') s
  let text := sliceStr s1.src start s1.i
  ((match keywordLookup text with
    | some k => ⟨k, text, s1.line⟩
    | none => ⟨.IDENTIFIER, text, s1.line⟩), s1)

/-- C++ `Lexer::number`: digits, then an optional fraction when a dot
is directly followed by a digit. -/
def numberTok (s : LexState) : Token × LexState :=
  let start := s.i - 1
  let s1 := scanWhileF (s.src.length - s.i) (fun st => isDigitCh (lexPeek st)) s
  let s2 :=
    if lexPeek s1 = '.' && isDigitCh (lexPeekNext s1) then
      let sA := lexAdv s1
      scanWhileF (sA.src.length - sA.i) (fun st => isDigitCh (lexPeek st)) sA
    else s1
  (⟨.NUMBER, sliceStr s2.src start s2.i, s2.line⟩, s2)

/-- C++ `Lexer::string` (called after the opening quote was consumed):
scan to the closing quote; an unterminated literal is the UNKNOWN
token; the lexeme excludes both quotes. -/
def stringTok (s : LexState) : Token × LexState :=
  let start := s.i
  let s1 := scanStrF (s.src.length - s.i) s
  if lexIsAtEnd s1 then (⟨.UNKNOWN, "", s1.line⟩, s1)
  else
    let s2 := lexAdv s1
    (⟨.STRING, sliceStr s2.src start (s2.i - 1), s2.line⟩, s2)

/-- Two-character operator formation (`match('=')` after `=`, `!`,
`<`, `>` in the switch of `Lexer::nextToken`). -/
def twoCharTok (expected : Char) (two one : TokenType) (twoLex oneLex : String)
    (s : LexState) : Token × LexState :=
  match lexMatch expected s with
  | (true, s2) => (⟨two, twoLex, s2.line⟩, s2)
  | (false, s2) => (⟨one, oneLex, s2.line⟩, s2)

/-- The token dispatch of C++ `Lexer::nextToken` (part_001 lines
30-86) on the consumed character `c`, except the `/` case — the
branches of the source are mutually exclusive single-character tests,
so hoisting the self-recursive `/` case out (see `nextTokenF`) is
behavior-preserving. -/
def dispatchTok (c : Char) (s1 : LexState) : Token × LexState :=
  if isAlphaCh c || c = '_' then identifierTok s1
  else if isDigitCh c then numberTok s1
  else if c = '(' then (⟨.LPAREN, "(", s1.line⟩, s1)
  else if c = ')' then (⟨.RPAREN, ")", s1.line⟩, s1)
  else if c = '\x7b' then (⟨.LBRACE, "\x7b", s1.line⟩, s1)
  else if c = '\x7d' then (⟨.RBRACE, "\x7d", s1.line⟩, s1)
  else if c = ',' then (⟨.COMMA, ",", s1.line⟩, s1)
  else if c = '.' then (⟨.DOT, ".", s1.line⟩, s1)
  else if c = ';' then (⟨.SEMICOLON, ";", s1.line⟩, s1)
  else if c = '+' then (⟨.PLUS, "+", s1.line⟩, s1)
  else if c = '-' then (⟨.MINUS, "-", s1.line⟩, s1)
  else if c = '*' then (⟨.STAR, "*", s1.line⟩, s1)
  else if c = '=' then twoCharTok '=' .EQUAL_EQUAL .ASSIGN "==" "=" s1
  else if c = '!' then twoCharTok '=' .BANG_EQUAL .BANG "!=" "!" s1
  else if c = '<' then twoCharTok '=' .LESS_EQUAL .LESS "<=" "<" s1
  else if c = '>' then twoCharTok '=' .GREATER_EQUAL .GREATER ">=" ">" s1
  else if c = '"' then stringTok s1
  else (⟨.UNKNOWN, String.mk [c], s1.line⟩, s1)

/-- Fueled form of C++ `Lexer::nextToken` (part_001 lines 21-87). The
only self-call is the line-comment case (`// …` then `return
nextToken();`), which consumes at least the two slashes first. -/
def nextTokenF : Nat → LexState → Option (Token × LexState)
  | 0, _ => none
  | fuel + 1, s0 =>
    let s := skipWhitespace s0
    if h : s.i < s.src.length then
      let c := s.src.get ⟨s.i, h⟩
      let s1 := lexAdv s
      if c = '/' then
        match lexMatch '/' s1 with
        | (true, s2) =>
          let s3 := scanWhileF (s2.src.length - s2.i)
            (fun st => lexPeek st ≠ '\n' && !lexIsAtEnd st) s2
          nextTokenF fuel s3
        | (false, s2) => some (⟨.SLASH, "/", s2.line⟩, s2)
      else some (dispatchTok c s1)
    else some (⟨.END_OF_FILE, "", s.line⟩, s)

/-- C++ `Lexer::nextToken`; the fuel `length - i + 1` is proved
sufficient below (`nextTokenF_isSome`), so the default is never used. -/
def nextToken (s : LexState) : Token × LexState :=
  (nextTokenF (s.src.length - s.i + 1) s).getD (⟨.END_OF_FILE, "", s.line⟩, s)

/-- Initial lexer state for a source string (`Lexer::Lexer`). -/
def initLex (src : String) : LexState := ⟨src.data, 0, 1⟩

/-- State after `n` further calls to `nextToken`. -/
def lexRun : Nat → LexState → LexState
  | 0, s => s
  | n + 1, s => lexRun n (nextToken s).2

/-- Token returned by the `(n+1)`-st call to `nextToken`. -/
def lexNth (s : LexState) (n : Nat) : Token := (nextToken (lexRun n s)).1

/-! ## Tree model (src/ast/AST.h, node shapes as used by part_000,
part_002 and part_007) -/

mutual

/-- Expression nodes: `BinaryExpr`, `LiteralExpr`, `VariableExpr`,
`AssignExpr`, `CallExpr`. -/
inductive ExprNode where
  | BinaryExpr (left : ExprNode) (op : Token) (right : ExprNode)
  | LiteralExpr (value : Token)
  | VariableExpr (name : Token)
  | AssignExpr (name : Token) (value : ExprNode)
  | CallExpr (callee : ExprNode) (paren : Token) (arguments : List ExprNode)

/-- Statement nodes, including the two declaration forms `FunctionNode`
(wrapped) and `ClassNode`. -/
inductive StmtNode where
  | ExpressionStmt (expression : ExprNode)
  | PrintStmt (expression : ExprNode)
  | VarStmt (name : Token) (initializer : Option ExprNode)
  | BlockStmt (statements : List StmtNode)
  | IfStmt (condition : ExprNode) (thenBranch : StmtNode) (elseBranch : Option StmtNode)
  | WhileStmt (condition : ExprNode) (body : StmtNode)
  | FunctionDecl (fn : FunctionNode)
  | ClassNode (name : String) (methods : List FunctionNode)

/-- `FunctionNode {name, params, body}`. -/
inductive FunctionNode where
  | mk (name : String) (params : List String) (body : List StmtNode)

end

/-- Field accessor `FunctionNode::name`. -/
def FunctionNode.name : FunctionNode → String
  | .mk n _ _ => n

/-- Field accessor `FunctionNode::params`. -/
def FunctionNode.params : FunctionNode → List String
  | .mk _ ps _ => ps

/-- Field accessor `FunctionNode::body`. -/
def FunctionNode.body : FunctionNode → List StmtNode
  | .mk _ _ b => b

/-- `ProgramNode {declarations}`. -/
structure ProgramNode where
  declarations : List StmtNode

/-! ## Parser (src/unnamed/part_007, `Parser`)

The parser holds a reference to the lexer and one token of look-ahead
(`currentToken`); the global diagnostic sink `ErrorHandling` is
modelled as the list `reports`.  All loops and recursions are fueled;
every recursive call decreases the fuel by one.
-/

structure PState where
  currentToken : Token
  lex : LexState
  reports : List String

/-- Outcome of a parse routine: a result, a thrown `std::runtime_error`
(carrying the parser state at the throw), or fuel exhaustion. -/
inductive PRes (α : Type) where
  | ok (a : α) (p : PState)
  | err (msg : String) (p : PState)
  | timeout

/-- Sequencing of parse routines (models straight-line C++ control flow
where a thrown exception propagates). -/
def PRes.bind {α β : Type} : PRes α → (α → PState → PRes β) → PRes β
  | .ok a p, f => f a p
  | .err m q, _ => .err m q
  | .timeout, _ => .timeout

/-- C++ `Parser::advance`: pull the next token from the lexer. -/
def pAdvance (p : PState) : PState :=
  let r := nextToken p.lex
  { currentToken := r.1, lex := r.2, reports := p.reports }

/-- C++ `Parser::consume(type)`: advance on the expected kind, else
report to the sink and throw. -/
def pConsume (ty : TokenType) (p : PState) : PRes Unit :=
  if p.currentToken.type = ty then .ok () (pAdvance p)
  else
    let msg := "Expected token type " ++ toString (ttIdx ty) ++ ", got "
      ++ toString (ttIdx p.currentToken.type)
    .err msg { p with reports := p.reports ++ [msg] }

/-- C++ `Parser::match(type)`: consume the current token when it has
the given kind. -/
def pMatch (ty : TokenType) (p : PState) : Bool × PState :=
  if p.currentToken.type = ty then (true, pAdvance p) else (false, p)

/-- C++ `Parser::match(initializer_list)` over several kinds. -/
def pMatchAny : List TokenType → PState → Bool × PState
  | [], p => (false, p)
  | t :: rest, p =>
    if p.currentToken.type = t then (true, pAdvance p) else pMatchAny rest p

mutual

/-- C++ `Parser::primary`.  Faithful to the source bug: after a
successful `match`, the node is built from `currentToken`, which is
already the FOLLOWING token. -/
def pPrimary : Nat → PState → PRes ExprNode
  | 0, _ => .timeout
  | fuel + 1, p =>
    match pMatch .NUMBER p with
    | (true, p1) => .ok (.LiteralExpr p1.currentToken) p1
    | (false, _) =>
    match pMatch .STRING p with
    | (true, p1) => .ok (.LiteralExpr p1.currentToken) p1
    | (false, _) =>
    match pMatch .IDENTIFIER p with
    | (true, p1) => .ok (.VariableExpr p1.currentToken) p1
    | (false, _) =>
    match pMatch .LPAREN p with
    | (true, p1) =>
      (pExpression fuel p1).bind fun e p2 =>
        (pConsume .RPAREN p2).bind fun _ p3 => .ok e p3
    | (false, _) => .err "Expected expression" p

/-- Argument list of C++ `Parser::finishCall` (the do/while over `,`). -/
def pArgsLoop : Nat → List ExprNode → PState → PRes (List ExprNode)
  | 0, _, _ => .timeout
  | fuel + 1, acc, p =>
    (pExpression fuel p).bind fun e p1 =>
      match pMatch .COMMA p1 with
      | (true, p2) => pArgsLoop fuel (acc ++ [e]) p2
      | (false, p2) => .ok (acc ++ [e]) p2

/-- C++ `Parser::finishCall`. -/
def pFinishCall : Nat → ExprNode → PState → PRes ExprNode
  | 0, _, _ => .timeout
  | fuel + 1, callee, p =>
    (if p.currentToken.type ≠ .RPAREN then pArgsLoop fuel [] p
     else .ok [] p).bind fun args p1 =>
      let paren := p1.currentToken
      (pConsume .RPAREN p1).bind fun _ p2 =>
        .ok (.CallExpr callee paren args) p2

/-- Call-postfix loop of C++ `Parser::call`. -/
def pCallLoop : Nat → ExprNode → PState → PRes ExprNode
  | 0, _, _ => .timeout
  | fuel + 1, expr, p =>
    match pMatch .LPAREN p with
    | (true, p1) => (pFinishCall fuel expr p1).bind fun e p2 => pCallLoop fuel e p2
    | (false, p1) => .ok expr p1

/-- C++ `Parser::call`. -/
def pCall : Nat → PState → PRes ExprNode
  | 0, _ => .timeout
  | fuel + 1, p => (pPrimary fuel p).bind fun e p1 => pCallLoop fuel e p1

/-- C++ `Parser::unary` (no unary operators implemented). -/
def pUnary : Nat → PState → PRes ExprNode
  | 0, _ => .timeout
  | fuel + 1, p => pCall fuel p

/-- Operator loop of C++ `Parser::factor`.  Faithful to the source bug:
`match` already consumed the operator, so `op` is the next token and a
second `advance` skips one more token. -/
def pFactorLoop : Nat → ExprNode → PState → PRes ExprNode
  | 0, _, _ => .timeout
  | fuel + 1, expr, p =>
    match pMatchAny [.STAR, .SLASH] p with
    | (true, p1) =>
      let op := p1.currentToken
      let p2 := pAdvance p1
      (pUnary fuel p2).bind fun right p3 =>
        pFactorLoop fuel (.BinaryExpr expr op right) p3
    | (false, p1) => .ok expr p1

/-- C++ `Parser::factor`. -/
def pFactor : Nat → PState → PRes ExprNode
  | 0, _ => .timeout
  | fuel + 1, p => (pUnary fuel p).bind fun e p1 => pFactorLoop fuel e p1

/-- Operator loop of C++ `Parser::term` (same source bug as `factor`). -/
def pTermLoop : Nat → ExprNode → PState → PRes ExprNode
  | 0, _, _ => .timeout
  | fuel + 1, expr, p =>
    match pMatchAny [.PLUS, .MINUS] p with
    | (true, p1) =>
      let op := p1.currentToken
      let p2 := pAdvance p1
      (pUnary fuel p2).bind fun right p3 =>
        pTermLoop fuel (.BinaryExpr expr op right) p3
    | (false, p1) => .ok expr p1

/-- C++ `Parser::term`. -/
def pTerm : Nat → PState → PRes ExprNode
  | 0, _ => .timeout
  | fuel + 1, p => (pFactor fuel p).bind fun e p1 => pTermLoop fuel e p1

/-- C++ `Parser::comparison` (pass-through). -/
def pComparison : Nat → PState → PRes ExprNode
  | 0, _ => .timeout
  | fuel + 1, p => pTerm fuel p

/-- C++ `Parser::equality` (pass-through). -/
def pEquality : Nat → PState → PRes ExprNode
  | 0, _ => .timeout
  | fuel + 1, p => pComparison fuel p

/-- C++ `Parser::assignment`. -/
def pAssignment : Nat → PState → PRes ExprNode
  | 0, _ => .timeout
  | fuel + 1, p =>
    (pEquality fuel p).bind fun expr p1 =>
      match pMatch .ASSIGN p1 with
      | (true, p2) =>
        (pAssignment fuel p2).bind fun value p3 =>
          match expr with
          | .VariableExpr name => .ok (.AssignExpr name value) p3
          | _ => .err "Invalid assignment target" p3
      | (false, p2) => .ok expr p2

/-- C++ `Parser::expression`. -/
def pExpression : Nat → PState → PRes ExprNode
  | 0, _ => .timeout
  | fuel + 1, p => pAssignment fuel p

/-- C++ `Parser::expressionStatement`. -/
def pExprStatement : Nat → PState → PRes StmtNode
  | 0, _ => .timeout
  | fuel + 1, p =>
    (pExpression fuel p).bind fun e p1 =>
      (pConsume .SEMICOLON p1).bind fun _ p2 => .ok (.ExpressionStmt e) p2

/-- C++ `Parser::printStatement` (the `print` keyword was consumed by
`statement`). -/
def pPrintStatement : Nat → PState → PRes StmtNode
  | 0, _ => .timeout
  | fuel + 1, p =>
    (pExpression fuel p).bind fun e p1 =>
      (pConsume .SEMICOLON p1).bind fun _ p2 => .ok (.PrintStmt e) p2

/-- Declaration loop shared by C++ `Parser::block` and the body loop of
`Parser::parseFunction` (identical loops in the source). -/
def pBlockLoop : Nat → List StmtNode → PState → PRes (List StmtNode)
  | 0, _, _ => .timeout
  | fuel + 1, acc, p =>
    if p.currentToken.type ≠ .RBRACE ∧ p.currentToken.type ≠ .END_OF_FILE then
      (pDeclaration fuel p).bind fun d p1 => pBlockLoop fuel (acc ++ [d]) p1
    else .ok acc p

/-- C++ `Parser::block` (the opening brace was consumed by `statement`). -/
def pBlock : Nat → PState → PRes StmtNode
  | 0, _ => .timeout
  | fuel + 1, p =>
    (pBlockLoop fuel [] p).bind fun ss p1 =>
      (pConsume .RBRACE p1).bind fun _ p2 => .ok (.BlockStmt ss) p2

/-- C++ `Parser::ifStatement`. -/
def pIfStatement : Nat → PState → PRes StmtNode
  | 0, _ => .timeout
  | fuel + 1, p =>
    (pConsume .LPAREN p).bind fun _ p1 =>
    (pExpression fuel p1).bind fun c p2 =>
    (pConsume .RPAREN p2).bind fun _ p3 =>
    (pStatement fuel p3).bind fun tb p4 =>
      match pMatch .ELSE p4 with
      | (true, p5) => (pStatement fuel p5).bind fun eb p6 => .ok (.IfStmt c tb (some eb)) p6
      | (false, p5) => .ok (.IfStmt c tb none) p5

/-- C++ `Parser::whileStatement`. -/
def pWhileStatement : Nat → PState → PRes StmtNode
  | 0, _ => .timeout
  | fuel + 1, p =>
    (pConsume .LPAREN p).bind fun _ p1 =>
    (pExpression fuel p1).bind fun c p2 =>
    (pConsume .RPAREN p2).bind fun _ p3 =>
    (pStatement fuel p3).bind fun b p4 => .ok (.WhileStmt c b) p4

/-- C++ `Parser::statement`. -/
def pStatement : Nat → PState → PRes StmtNode
  | 0, _ => .timeout
  | fuel + 1, p =>
    match pMatch .IF p with
    | (true, p1) => pIfStatement fuel p1
    | (false, _) =>
    match pMatch .PRINT p with
    | (true, p1) => pPrintStatement fuel p1
    | (false, _) =>
    match pMatch .WHILE p with
    | (true, p1) => pWhileStatement fuel p1
    | (false, _) =>
    match pMatch .LBRACE p with
    | (true, p1) => pBlock fuel p1
    | (false, _) => pExprStatement fuel p

/-- C++ `Parser::varDeclaration` (the `let` keyword was consumed by
`declaration`). -/
def pVarDeclaration : Nat → PState → PRes StmtNode
  | 0, _ => .timeout
  | fuel + 1, p =>
    let name := p.currentToken
    (pConsume .IDENTIFIER p).bind fun _ p1 =>
      (match pMatch .ASSIGN p1 with
       | (true, p2) => (pExpression fuel p2).bind fun e p3 => .ok (some e) p3
       | (false, p2) => .ok (none : Option ExprNode) p2).bind fun ini p3 =>
        (pConsume .SEMICOLON p3).bind fun _ p4 => .ok (.VarStmt name ini) p4

/-- Parameter loop of C++ `Parser::parseFunction`. -/
def pParamsLoop : Nat → List String → PState → PRes (List String)
  | 0, _, _ => .timeout
  | fuel + 1, acc, p =>
    let param := p.currentToken
    (pConsume .IDENTIFIER p).bind fun _ p1 =>
      match pMatch .COMMA p1 with
      | (true, p2) => pParamsLoop fuel (acc ++ [param.lexeme]) p2
      | (false, p2) => .ok (acc ++ [param.lexeme]) p2

/-- C++ `Parser::parseFunction`.  It begins with `consume(FN)`; when it
is reached through `declaration`, which already matched (and consumed)
`fn`, this consume sees the following token. -/
def pParseFunction : Nat → PState → PRes FunctionNode
  | 0, _ => .timeout
  | fuel + 1, p =>
    (pConsume .FN p).bind fun _ p1 =>
      let name := p1.currentToken
      (pConsume .IDENTIFIER p1).bind fun _ p2 =>
      (pConsume .LPAREN p2).bind fun _ p3 =>
      (if p3.currentToken.type ≠ .RPAREN then pParamsLoop fuel [] p3
       else .ok [] p3).bind fun params p4 =>
      (pConsume .RPAREN p4).bind fun _ p5 =>
      (pConsume .LBRACE p5).bind fun _ p6 =>
      (pBlockLoop fuel [] p6).bind fun body p7 =>
      (pConsume .RBRACE p7).bind fun _ p8 =>
        .ok (.mk name.lexeme params body) p8

/-- Class-body loop of C++ `Parser::parseClass`: only `fn` members
contribute methods, any other token is skipped with one `advance`. -/
def pClassBodyLoop : Nat → List FunctionNode → PState → PRes (List FunctionNode)
  | 0, _, _ => .timeout
  | fuel + 1, acc, p =>
    if p.currentToken.type ≠ .RBRACE ∧ p.currentToken.type ≠ .END_OF_FILE then
      if p.currentToken.type = .FN then
        (pParseFunction fuel p).bind fun f p1 => pClassBodyLoop fuel (acc ++ [f]) p1
      else pClassBodyLoop fuel acc (pAdvance p)
    else .ok acc p

/-- C++ `Parser::parseClass` (with the same double-consume of `class`
as `parseFunction` has for `fn`). -/
def pParseClass : Nat → PState → PRes StmtNode
  | 0, _ => .timeout
  | fuel + 1, p =>
    (pConsume .CLASS p).bind fun _ p1 =>
      let name := p1.currentToken
      (pConsume .IDENTIFIER p1).bind fun _ p2 =>
      (pConsume .LBRACE p2).bind fun _ p3 =>
      (pClassBodyLoop fuel [] p3).bind fun methods p4 =>
      (pConsume .RBRACE p4).bind fun _ p5 =>
        .ok (.ClassNode name.lexeme methods) p5

/-- C++ `Parser::declaration`. -/
def pDeclaration : Nat → PState → PRes StmtNode
  | 0, _ => .timeout
  | fuel + 1, p =>
    match pMatch .CLASS p with
    | (true, p1) => pParseClass fuel p1
    | (false, _) =>
    match pMatch .FN p with
    | (true, p1) => (pParseFunction fuel p1).bind fun f p2 => .ok (.FunctionDecl f) p2
    | (false, _) =>
    match pMatch .LET p with
    | (true, p1) => pVarDeclaration fuel p1
    | (false, _) => pStatement fuel p

end

/-- Scan loop of C++ `Parser::synchronize`: stop after consuming a
semicolon, or before `class`, `fn`, `let`, `if`, `while`, `print`, or
at end of input. -/
def pSyncLoop : Nat → PState → PState
  | 0, p => p
  | fuel + 1, p =>
    if p.currentToken.type = .END_OF_FILE then p
    else if p.currentToken.type = .SEMICOLON then pAdvance p
    else if p.currentToken.type = .CLASS ∨ p.currentToken.type = .FN ∨
            p.currentToken.type = .LET ∨ p.currentToken.type = .IF ∨
            p.currentToken.type = .WHILE ∨ p.currentToken.type = .PRINT then p
    else pSyncLoop fuel (pAdvance p)

/-- C++ `Parser::synchronize` (one unconditional advance, then scan). -/
def pSynchronize (fuel : Nat) (p : PState) : PState := pSyncLoop fuel (pAdvance p)

/-- Main loop of C++ `Parser::parse`.  The try/catch wraps the WHOLE
loop: on the first parse error the catch handler reports, synchronizes
once, and control falls through to `return new ProgramNode(...)` — the
loop is NOT re-entered. -/
def pParseLoop : Nat → List StmtNode → PState → Option (List StmtNode × PState)
  | 0, _, _ => none
  | fuel + 1, acc, p =>
    if p.currentToken.type = .END_OF_FILE then some (acc, p)
    else
      match pDeclaration fuel p with
      | .ok d p1 => pParseLoop fuel (acc ++ [d]) p1
      | .err m p1 =>
        let p2 := { p1 with reports := p1.reports ++ ["Error while parsing: " ++ m] }
        some (acc, pSynchronize fuel p2)
      | .timeout => none

/-- C++ `Parser::Parser` constructor: pull the first token. -/
def mkParser (src : String) : PState :=
  let r := nextToken (initLex src)
  ⟨r.1, r.2, []⟩

/-- C++ `Parser::parse` run on a source string (`none` = fuel ran out). -/
def parseProgram (fuel : Nat) (src : String) : Option (ProgramNode × PState) :=
  (pParseLoop fuel [] (mkParser src)).map fun r => (⟨r.1⟩, r.2)

/-! ## Association lists

The C++ sources keep `std::unordered_map<std::string, …>` members
(`SymbolTable::symbols`, `Environment::values`, `Class::methods`).
They are modelled as association lists with unique keys: lookup finds
the first matching key, update replaces the value of an existing key
in place, insert appends a fresh key. -/

/-- Lookup (`map.find`). -/
def assocGet {β : Type} : List (String × β) → String → Option β
  | [], _ => none
  | (k, v) :: rest, n => if k = n then some v else assocGet rest n

/-- Update the value of an existing key (`it->second = value`);
identity if the key is absent. -/
def assocUpdate {β : Type} : List (String × β) → String → β → List (String × β)
  | [], _, _ => []
  | (k, w) :: rest, n, v => if k = n then (k, v) :: rest else (k, w) :: assocUpdate rest n v

/-- Insert-or-overwrite (`map[key] = value`). -/
def assocSet {β : Type} (l : List (String × β)) (n : String) (v : β) : List (String × β) :=
  if (assocGet l n).isSome then assocUpdate l n v else l ++ [(n, v)]

/-! ## Symbol table (src/symbol/SymbolTable.h and SymbolTable.cpp,
also src/unnamed/part_004) -/

/-- `Symbol {name, type, isConst}`. -/
structure Symbol where
  name : String
  type : String
  isConst : Bool
deriving DecidableEq, Repr

/-- One scope: the `symbols` map of a `SymbolTable`. -/
abbrev Scope := List (String × Symbol)

/-- C++ `SymbolTable::define`: refuse (returning `false`, table
untouched) when the name is already present, else insert and return
`true`. -/
def stDefine (t : Scope) (sym : Symbol) : Bool × Scope :=
  if (assocGet t sym.name).isSome then (false, t)
  else (true, t ++ [(sym.name, sym)])

/-- C++ `SymbolTable::resolve` along the parent chain; the chain of
`SymbolTable*` parents is modelled as a list with the innermost scope
first. -/
def resolveScopes : List Scope → String → Option Symbol
  | [], _ => none
  | sc :: rest, n =>
    match assocGet sc n with
    | some s => some s
    | none => resolveScopes rest n

/-! ## Semantic analyzer (src/semantic/SemanticAnalyzer.cpp,
`SemanticVisitor`)

The visitor state is the scope chain (innermost first) and the list of
messages sent to `ErrorHandling::reportError`.  Message texts are the
exact strings of the source. -/

/-- Message of `visit(VariableExpr)` / `visit(AssignExpr)` misses. -/
def semDiagUndefined (n : String) : String :=
  "Undefined variable \x27" ++ n ++ "\x27"

/-- Message of the const check in `visit(AssignExpr)`. -/
def semDiagConst (n : String) : String :=
  "Cannot assign to const variable \x27" ++ n ++ "\x27"

/-- Message of the duplicate check in `visit(VarStmt)`. -/
def semDiagDupVar (n : String) : String :=
  "Variable \x27" ++ n ++ "\x27 already defined in this scope"

/-- Message of the duplicate parameter check in `visit(FunctionNode)`. -/
def semDiagDupParam (n : String) : String :=
  "Parameter \x27" ++ n ++ "\x27 already defined"

/-- Message of the duplicate check in `visit(FunctionNode)`. -/
def semDiagDupFn (n : String) : String :=
  "Function \x27" ++ n ++ "\x27 already defined in this scope"

/-- Message of the duplicate check in `visit(ClassNode)`. -/
def semDiagDupClass (n : String) : String :=
  "Class \x27" ++ n ++ "\x27 already defined in this scope"

/-- Parameter loop of `visit(FunctionNode)`: define each parameter
(non-const, empty type tag) in the fresh child scope. -/
def semParamsFold : List String → Scope → List String → Scope × List String
  | [], scp, d => (scp, d)
  | pname :: rest, scp, d =>
    let r := stDefine scp ⟨pname, "", false⟩
    let d1 := if r.1 then d else d ++ [semDiagDupParam pname]
    semParamsFold rest r.2 d1

mutual

/-- Expression walk of `SemanticVisitor` (expressions never modify the
scope chain, only the diagnostics). -/
def semExpr : Nat → List Scope → List String → ExprNode → List String
  | 0, _, d, _ => d
  | fuel + 1, sc, d, e =>
    match e with
    | .BinaryExpr l _ r => semExpr fuel sc (semExpr fuel sc d l) r
    | .LiteralExpr _ => d
    | .VariableExpr tok =>
      match resolveScopes sc tok.lexeme with
      | some _ => d
      | none => d ++ [semDiagUndefined tok.lexeme]
    | .AssignExpr tok value =>
      let d1 := semExpr fuel sc d value
      match resolveScopes sc tok.lexeme with
      | none => d1 ++ [semDiagUndefined tok.lexeme]
      | some sym =>
        if sym.isConst then d1 ++ [semDiagConst tok.lexeme] else d1
    | .CallExpr callee _ args => semExprList fuel sc (semExpr fuel sc d callee) args

/-- Argument walk of `visit(CallExpr)`. -/
def semExprList : Nat → List Scope → List String → List ExprNode → List String
  | 0, _, d, _ => d
  | _ + 1, _, d, [] => d
  | fuel + 1, sc, d, e :: rest => semExprList fuel sc (semExpr fuel sc d e) rest

/-- Statement walk of `SemanticVisitor`. -/
def semStmt : Nat → List Scope → List String → StmtNode → List Scope × List String
  | 0, sc, d, _ => (sc, d)
  | fuel + 1, sc, d, s =>
    match s with
    | .ExpressionStmt e => (sc, semExpr fuel sc d e)
    | .PrintStmt e => (sc, semExpr fuel sc d e)
    | .VarStmt tok ini =>
      let d1 := match ini with
                | some e => semExpr fuel sc d e
                | none => d
      match sc with
      | [] => ([], d1)
      | h :: t =>
        let r := stDefine h ⟨tok.lexeme, "", false⟩
        if r.1 then (r.2 :: t, d1)
        else (r.2 :: t, d1 ++ [semDiagDupVar tok.lexeme])
    | .BlockStmt ss =>
      let r := semStmts fuel ([] :: sc) d ss
      match r.1 with
      | [] => ([], r.2)
      | _ :: t => (t, r.2)
    | .IfStmt c tb eb =>
      let d1 := semExpr fuel sc d c
      let r1 := semStmt fuel sc d1 tb
      match eb with
      | some e => semStmt fuel r1.1 r1.2 e
      | none => r1
    | .WhileStmt c b =>
      let d1 := semExpr fuel sc d c
      semStmt fuel sc d1 b
    | .FunctionDecl fn => semFunctionNode fuel sc d fn
    | .ClassNode name methods =>
      match sc with
      | [] => ([], d)
      | h :: t =>
        let r := stDefine h ⟨name, "class", true⟩
        let d1 := if r.1 then d else d ++ [semDiagDupClass name]
        let rm := semMethods fuel ([] :: r.2 :: t) d1 methods
        match rm.1 with
        | [] => ([], rm.2)
        | _ :: t2 => (t2, rm.2)

/-- C++ `visit(FunctionNode)`: define a const symbol of type
`"function"` in the current scope, then walk parameters and body in a
fresh child scope, then pop it. -/
def semFunctionNode : Nat → List Scope → List String → FunctionNode → List Scope × List String
  | 0, sc, d, _ => (sc, d)
  | fuel + 1, sc, d, fn =>
    match sc with
    | [] => ([], d)
    | h :: t =>
      let r := stDefine h ⟨fn.name, "function", true⟩
      let d1 := if r.1 then d else d ++ [semDiagDupFn fn.name]
      let pr := semParamsFold fn.params [] d1
      let rb := semStmts fuel (pr.1 :: r.2 :: t) pr.2 fn.body
      match rb.1 with
      | [] => ([], rb.2)
      | _ :: t2 => (t2, rb.2)

/-- Statement-list walk (used by `visit(ProgramNode)`, `visit(BlockStmt)`
and the body loop of `visit(FunctionNode)`). -/
def semStmts : Nat → List Scope → List String → List StmtNode → List Scope × List String
  | 0, sc, d, _ => (sc, d)
  | _ + 1, sc, d, [] => (sc, d)
  | fuel + 1, sc, d, s :: rest =>
    let r := semStmt fuel sc d s
    semStmts fuel r.1 r.2 rest

/-- Method loop of `visit(ClassNode)`. -/
def semMethods : Nat → List Scope → List String → List FunctionNode → List Scope × List String
  | 0, sc, d, _ => (sc, d)
  | _ + 1, sc, d, [] => (sc, d)
  | fuel + 1, sc, d, m :: rest =>
    let r := semFunctionNode fuel sc d m
    semMethods fuel r.1 r.2 rest

end

/-- C++ `SemanticAnalyzer::analyze`: walk the program in one global
scope; the result is the list of diagnostics reported. -/
def analyzeProgram (fuel : Nat) (decls : List StmtNode) : List String :=
  (semStmts fuel [[]] [] decls).2

/-! ## Evaluator (src/unnamed/part_002, the full implementation with
`Function`, `Class` and `Instance` values)

Every runtime error in the source is a `std::runtime_error` carrying a
message; they are modelled by `RuntimeErr`, and `errMessage` renders
the exact source message. -/

inductive RuntimeErr where
  | undefinedVariable (name : String)
  | plusTypeMismatch
  | operandNotNumber
  | divisionByZero
  | arityMismatch (expected got : Nat)
  | notCallable
  | undefinedProperty (name : String)
deriving DecidableEq, Repr

/-- The `what()` string of each thrown `std::runtime_error`. -/
def errMessage : RuntimeErr → String
  | .undefinedVariable n => "Undefined variable \x27" ++ n ++ "\x27"
  | .plusTypeMismatch => "Operands must be two numbers or two strings"
  | .operandNotNumber => "Operand must be a number"
  | .divisionByZero => "Division by zero"
  | .arityMismatch e g =>
    "Expected " ++ toString e ++ " arguments but got " ++ toString g
  | .notCallable => "Can only call functions and classes"
  | .undefinedProperty n => "Undefined property \x27" ++ n ++ "\x27"

/-- The spec kind `TypeMismatch` covers the two operand-type errors of
`visit(BinaryExpr)`/`asNumber`. -/
def RuntimeErr.isTypeMismatch : RuntimeErr → Bool
  | .plusTypeMismatch => true
  | .operandNotNumber => true
  | _ => false

/-- C++ `Class {name, methods}`; each method value is a `Function`,
i.e. a declaration plus the frame id of its captured closure. -/
structure ClassData where
  name : String
  methods : List (String × (FunctionNode × Nat))

/-- Runtime `Value` variant (part_002 line 291).  A `Function` is its
`FunctionNode*` plus the shared environment it closes over (a frame
id); an `Instance` holds its class (its field map stays empty in every
behavior the claims mention: `Class::call` never stores into it). -/
inductive Value where
  | vnil
  | vbool (b : Bool)
  | vnum (n : Rat)
  | vstr (s : String)
  | vfun (declaration : FunctionNode) (closure : Nat)
  | vclass (c : ClassData)
  | vinst (klass : ClassData)

/-- One C++ `Environment`: its `values` map and the optional
`enclosing` environment.  Environments are shared mutable objects
(`shared_ptr<Environment>`), so they live in a store (`frames`) and
are referenced by index; an environment created later always encloses
an earlier one, so chains are acyclic. -/
structure Frame where
  values : List (String × Value)
  enclosing : Option Nat

/-- Interpreter state: the environment store, the current environment
(`InterpreterVisitor::environment`; index 0 is `globals`) and the
lines written to stdout by `print`. -/
structure InterpState where
  frames : List Frame
  env : Nat
  output : List String

/-- Store read (ids handed out by the evaluator are always in range). -/
def getFrame (frames : List Frame) (id : Nat) : Frame :=
  frames.getD id ⟨[], none⟩

/-- Store write. -/
def setFrame (frames : List Frame) (id : Nat) (f : Frame) : List Frame :=
  frames.set id f

/-- C++ `Environment::define`: insert or overwrite locally. -/
def envDefine (s : InterpState) (name : String) (v : Value) : InterpState :=
  let f := getFrame s.frames s.env
  { s with frames := setFrame s.frames s.env { f with values := assocSet f.values name v } }

/-- Fueled form of C++ `Environment::get`: local lookup, then the
enclosing chain, else `Undefined variable`. -/
def envGetF : Nat → List Frame → Nat → String → Except RuntimeErr Value
  | 0, _, _, name => .error (.undefinedVariable name)
  | fuel + 1, frames, id, name =>
    match assocGet (getFrame frames id).values name with
    | some v => .ok v
    | none =>
      match (getFrame frames id).enclosing with
      | some p => envGetF fuel frames p name
      | none => .error (.undefinedVariable name)

/-- C++ `Environment::get` from the current environment (chains are
strictly shorter than the store, so `length + 1` fuel is exact). -/
def envGet (s : InterpState) (name : String) : Except RuntimeErr Value :=
  envGetF (s.frames.length + 1) s.frames s.env name

/-- Fueled form of C++ `Environment::assign`: update the innermost
existing binding along the enclosing chain; never inserts. -/
def envAssignF : Nat → List Frame → Nat → String → Value → Except RuntimeErr (List Frame)
  | 0, _, _, name, _ => .error (.undefinedVariable name)
  | fuel + 1, frames, id, name, v =>
    if (assocGet (getFrame frames id).values name).isSome then
      .ok (setFrame frames id
        { getFrame frames id with
          values := assocUpdate (getFrame frames id).values name v })
    else
      match (getFrame frames id).enclosing with
      | some p => envAssignF fuel frames p name v
      | none => .error (.undefinedVariable name)

/-- C++ `Environment::assign` from the current environment. -/
def envAssign (s : InterpState) (name : String) (v : Value) : Except RuntimeErr InterpState :=
  (envAssignF (s.frames.length + 1) s.frames s.env name v).map
    fun fr => { s with frames := fr }

/-- C++ `isTruthy` (part_002 lines 469-476): nil is false, a boolean
is itself, everything else is true. -/
def isTruthy : Value → Bool
  | .vnil => false
  | .vbool b => b
  | _ => true

/-- Strip trailing `0` characters (the `find_last_not_of` step of
`valueToString`). -/
def dropTrailingZeros (s : String) : String :=
  String.mk (s.data.reverse.dropWhile (fun c => c = '0')).reverse

/-- Pad a digit string to the given width with leading zeros. -/
def padLeftZeros (s : String) (n : Nat) : String :=
  String.mk (List.replicate (n - s.length) '0' ++ s.data)

/-- Rendering of a number by C++ `valueToString`: `std::to_string`
(six fixed decimals) followed by stripping trailing zeros and a bare
trailing dot.  Exact for the dyadic values the claims touch. -/
def ratToFixed6 (q : Rat) : String :=
  let sign := if q < 0 then "-" else ""
  let a := |q|
  let scaled := (a * 1000000 + 1 / 2).floor.toNat
  let ip := scaled / 1000000
  let frac := dropTrailingZeros (padLeftZeros (toString (scaled % 1000000)) 6)
  sign ++ toString ip ++ (if frac = "" then "" else "." ++ frac)

/-- C++ `valueToString` (part_002 lines 438-467). -/
def valueToString : Value → String
  | .vnil => "nil"
  | .vbool b => if b then "true" else "false"
  | .vnum q => ratToFixed6 q
  | .vstr s => s
  | .vfun d _ => "<fn " ++ d.name ++ ">"
  | .vclass c => "<class " ++ c.name ++ ">"
  | .vinst c => "<instance of <class " ++ c.name ++ ">>"

/-- Decimal parse performed by `std::stod` in `visit(LiteralExpr)` on
the lexemes the number rule produces (`digits` or `digits.digits`). -/
def digitsToNat : List Char → Nat → Nat
  | [], acc => acc
  | c :: rest, acc => digitsToNat rest (acc * 10 + (c.toNat - 48))

/-- Numeric value of a NUMBER lexeme. -/
def lexemeToRat (s : String) : Rat :=
  match s.splitOn "." with
  | [ip] => (digitsToNat ip.data 0 : Rat)
  | [ip, fp] =>
    (digitsToNat ip.data 0 : Rat) + (digitsToNat fp.data 0 : Rat) / ((10 : Rat) ^ fp.length)
  | _ => 0

/-- Operator dispatch of C++ `visit(BinaryExpr)` (part_002 lines
525-562) after both operands are evaluated.  `PLUS` requires two
numbers or two strings.  `MINUS`/`STAR` evaluate `asNumber` on both
operands (the two calls are unsequenced in C++, but both throw the
same error, so checking jointly is observably identical).  `SLASH`
first runs `asNumber(right)` and the zero test, and only then touches
the left operand.  Every other operator stores nil. -/
def binaryOpEval (op : TokenType) (left right : Value) : Except RuntimeErr Value :=
  match op with
  | .PLUS =>
    match left, right with
    | .vnum a, .vnum b => .ok (.vnum (a + b))
    | .vstr a, .vstr b => .ok (.vstr (a ++ b))
    | _, _ => .error .plusTypeMismatch
  | .MINUS =>
    match left, right with
    | .vnum a, .vnum b => .ok (.vnum (a - b))
    | _, _ => .error .operandNotNumber
  | .STAR =>
    match left, right with
    | .vnum a, .vnum b => .ok (.vnum (a * b))
    | _, _ => .error .operandNotNumber
  | .SLASH =>
    match right with
    | .vnum b =>
      if b = 0 then .error .divisionByZero
      else
        match left with
        | .vnum a => .ok (.vnum (a / b))
        | _ => .error .operandNotNumber
    | _ => .error .operandNotNumber
  | _ => .ok .vnil

/-- Result of an evaluator step: normal completion, a propagating
`std::runtime_error` (with the interpreter state at the throw), or
fuel exhaustion (the model's artifact, not a C++ outcome). -/
inductive Res (α : Type) where
  | ok (a : α)
  | err (e : RuntimeErr) (s : InterpState)
  | timeout

/-- Parameter binding loop of C++ `Function::call` (caller checked the
arity, so the lists have equal length). -/
def bindParams (ps : List String) (vs : List Value) : List (String × Value) :=
  (ps.zip vs).foldl (fun acc pv => assocSet acc pv.1 pv.2) []

/-- Method-map construction loop of C++ `visit(ClassNode)`: each
method becomes a `Function` closing over the given environment. -/
def buildMethodsFold (env : Nat) : List FunctionNode →
    List (String × (FunctionNode × Nat)) → List (String × (FunctionNode × Nat))
  | [], acc => acc
  | m :: rest, acc => buildMethodsFold env rest (assocSet acc m.name (m, env))

mutual

/-- Expression evaluation of `InterpreterVisitor` (the `lastValue`
slot is modelled as the returned value). -/
def evalExpr : Nat → InterpState → ExprNode → Res (Value × InterpState)
  | 0, _, _ => .timeout
  | fuel + 1, s, e =>
    match e with
    | .BinaryExpr l op r =>
      match evalExpr fuel s l with
      | .ok (lv, s1) =>
        match evalExpr fuel s1 r with
        | .ok (rv, s2) =>
          match binaryOpEval op.type lv rv with
          | .ok v => .ok (v, s2)
          | .error er => .err er s2
        | .err er s2 => .err er s2
        | .timeout => .timeout
      | .err er s1 => .err er s1
      | .timeout => .timeout
    | .LiteralExpr tok =>
      match tok.type with
      | .NUMBER => .ok (.vnum (lexemeToRat tok.lexeme), s)
      | .STRING => .ok (.vstr tok.lexeme, s)
      | _ => .ok (.vnil, s)
    | .VariableExpr tok =>
      match envGet s tok.lexeme with
      | .ok v => .ok (v, s)
      | .error er => .err er s
    | .AssignExpr tok value =>
      match evalExpr fuel s value with
      | .ok (v, s1) =>
        match envAssign s1 tok.lexeme v with
        | .ok s2 => .ok (v, s2)
        | .error er => .err er s1
      | .err er s1 => .err er s1
      | .timeout => .timeout
    | .CallExpr callee _ args =>
      match evalExpr fuel s callee with
      | .ok (cv, s1) =>
        match evalArgs fuel s1 args [] with
        | .ok (avs, s2) =>
          match cv with
          | .vfun decl closure =>
            if avs.length ≠ decl.params.length then
              .err (.arityMismatch decl.params.length avs.length) s2
            else functionCall fuel s2 decl closure avs
          | .vclass c =>
            let ar := match assocGet c.methods "init" with
                      | some dc => dc.1.params.length
                      | none => 0
            if avs.length ≠ ar then .err (.arityMismatch ar avs.length) s2
            else classCall fuel s2 c avs
          | _ => .err .notCallable s2
        | .err er s2 => .err er s2
        | .timeout => .timeout
      | .err er s1 => .err er s1
      | .timeout => .timeout

/-- Left-to-right argument evaluation of `visit(CallExpr)`. -/
def evalArgs : Nat → InterpState → List ExprNode → List Value → Res (List Value × InterpState)
  | 0, _, _, _ => .timeout
  | _ + 1, s, [], acc => .ok (acc, s)
  | fuel + 1, s, e :: rest, acc =>
    match evalExpr fuel s e with
    | .ok (v, s1) => evalArgs fuel s1 rest (acc ++ [v])
    | .err er s1 => .err er s1
    | .timeout => .timeout

/-- Statement execution of `InterpreterVisitor`. -/
def execStmt : Nat → InterpState → StmtNode → Res InterpState
  | 0, _, _ => .timeout
  | fuel + 1, s, st =>
    match st with
    | .ExpressionStmt e =>
      match evalExpr fuel s e with
      | .ok (_, s1) => .ok s1
      | .err er s1 => .err er s1
      | .timeout => .timeout
    | .PrintStmt e =>
      match evalExpr fuel s e with
      | .ok (v, s1) => .ok { s1 with output := s1.output ++ [valueToString v] }
      | .err er s1 => .err er s1
      | .timeout => .timeout
    | .VarStmt tok ini =>
      match ini with
      | some e =>
        match evalExpr fuel s e with
        | .ok (v, s1) => .ok (envDefine s1 tok.lexeme v)
        | .err er s1 => .err er s1
        | .timeout => .timeout
      | none => .ok (envDefine s tok.lexeme .vnil)
    | .BlockStmt ss =>
      let newId := s.frames.length
      let s1 := { s with frames := s.frames ++ [⟨[], some s.env⟩] }
      executeBlock fuel s1 newId ss
    | .IfStmt c tb eb =>
      match evalExpr fuel s c with
      | .ok (v, s1) =>
        if isTruthy v then execStmt fuel s1 tb
        else
          match eb with
          | some e => execStmt fuel s1 e
          | none => .ok s1
      | .err er s1 => .err er s1
      | .timeout => .timeout
    | .WhileStmt c b =>
      match evalExpr fuel s c with
      | .ok (v, s1) =>
        if isTruthy v then
          match execStmt fuel s1 b with
          | .ok s2 => execStmt fuel s2 (.WhileStmt c b)
          | .err er s2 => .err er s2
          | .timeout => .timeout
        else .ok s1
      | .err er s1 => .err er s1
      | .timeout => .timeout
    | .FunctionDecl fn => .ok (envDefine s fn.name (.vfun fn s.env))
    | .ClassNode name methods =>
      let s1 := envDefine s name .vnil
      let ms := buildMethodsFold s1.env methods []
      match envAssign s1 name (.vclass ⟨name, ms⟩) with
      | .ok s2 => .ok s2
      | .error er => .err er s1

/-- Statement-list execution (`visit(ProgramNode)` loop and the loop
inside `executeBlock`). -/
def execStmts : Nat → InterpState → List StmtNode → Res InterpState
  | 0, _, _ => .timeout
  | _ + 1, s, [] => .ok s
  | fuel + 1, s, st :: rest =>
    match execStmt fuel s st with
    | .ok s1 => execStmts fuel s1 rest
    | .err er s1 => .err er s1
    | .timeout => .timeout

/-- C++ `InterpreterVisitor::executeBlock`: switch to the new
environment, run the statements, and restore the previous environment
on both the normal path and the exception path (`catch (...) {
environment = previous; throw; }`). -/
def executeBlock : Nat → InterpState → Nat → List StmtNode → Res InterpState
  | 0, _, _, _ => .timeout
  | fuel + 1, s, newEnv, ss =>
    let previous := s.env
    match execStmts fuel { s with env := newEnv } ss with
    | .ok s1 => .ok { s1 with env := previous }
    | .err er s1 => .err er { s1 with env := previous }
    | .timeout => .timeout

/-- C++ `Function::call` (part_002 lines 693-708): a fresh environment
enclosing the closure, positional parameter binding, then the body via
`executeBlock` wrapped in `try … catch (const std::runtime_error&)`
whose handler is EMPTY — any runtime error from the body is swallowed
and the call returns nil. -/
def functionCall : Nat → InterpState → FunctionNode → Nat → List Value → Res (Value × InterpState)
  | 0, _, _, _, _ => .timeout
  | fuel + 1, s, decl, closure, args =>
    let newId := s.frames.length
    let s1 := { s with frames := s.frames ++ [⟨bindParams decl.params args, some closure⟩] }
    match executeBlock fuel s1 newId decl.body with
    | .ok s2 => .ok (.vnil, s2)
    | .err _ s2 => .ok (.vnil, s2)
    | .timeout => .timeout

/-- C++ `Class::call`: construct the instance, invoke `init` for its
side effects when present, return the instance. -/
def classCall : Nat → InterpState → ClassData → List Value → Res (Value × InterpState)
  | 0, _, _, _ => .timeout
  | fuel + 1, s, c, args =>
    match assocGet c.methods "init" with
    | some dc =>
      match functionCall fuel s dc.1 dc.2 args with
      | .ok (_, s1) => .ok (.vinst c, s1)
      | .err er s1 => .err er s1
      | .timeout => .timeout
    | none => .ok (.vinst c, s)

end

/-- Outcome of C++ `Interpreter::execute`: what was printed, the
message passed to `ErrorHandling::reportError` by the top-level catch
(if any), and the final environment store. -/
structure RunResult where
  output : List String
  reported : Option String
  frames : List Frame

/-- Fresh `InterpreterVisitor`: one global environment, nothing printed. -/
def initState : InterpState := ⟨[⟨[], none⟩], 0, []⟩

/-- C++ `Interpreter::execute`: run the program; a propagating runtime
error is caught at the top and reported once, ending evaluation. -/
def interpret (fuel : Nat) (decls : List StmtNode) : Option RunResult :=
  match execStmts fuel initState decls with
  | .ok s => some ⟨s.output, none, s.frames⟩
  | .err er s => some ⟨s.output, some ("Runtime error: " ++ errMessage er), s.frames⟩
  | .timeout => none

/-- Full pipeline on one source string: lex + parse, then evaluate the
resulting program. -/
structure PipelineResult where
  program : ProgramNode
  parserReports : List String
  runOutput : List String
  runtimeReport : Option String

/-- Lex, parse and evaluate a source string (`none` = fuel ran out). -/
def runSource (fuel : Nat) (src : String) : Option PipelineResult :=
  match parseProgram fuel src with
  | some pr =>
    match interpret fuel pr.1.declarations with
    | some rr => some ⟨pr.1, pr.2.reports, rr.output, rr.reported⟩
    | none => none
  | none => none

/-! ## Claim-side characterizations and concrete test programs -/

/-- Spec-side characterization of the target of `Environment::assign`:
the first environment along the enclosing chain whose local map binds
the name (the innermost existing binding), walked with the same fuel
discipline as `envAssignF`. -/
def chainFind : Nat → List Frame → Nat → String → Option Nat
  | 0, _, _, _ => none
  | fuel + 1, frames, id, name =>
    if (assocGet (getFrame frames id).values name).isSome then some id
    else
      match (getFrame frames id).enclosing with
      | some p => chainFind fuel frames p name
      | none => none

/-- Shape test: is the value a number? -/
def Value.isNum : Value → Bool
  | .vnum _ => true
  | _ => false

/-- Shape test: is the value a string? -/
def Value.isStr : Value → Bool
  | .vstr _ => true
  | _ => false

/-- AST of `fn f() { print x; } f(); print "after";` (the parser
cannot itself produce a function declaration, so the evaluator claims
are settled on the tree directly). -/
def c1prog : List StmtNode :=
  [ .FunctionDecl (.mk "f" [] [.PrintStmt (.VariableExpr ⟨.IDENTIFIER, "x", 1⟩)]),
    .ExpressionStmt (.CallExpr (.VariableExpr ⟨.IDENTIFIER, "f", 1⟩) ⟨.RPAREN, ")", 1⟩ []),
    .PrintStmt (.LiteralExpr ⟨.STRING, "after", 1⟩) ]

/-- AST of `print x; print "after";` — the same runtime error raised
OUTSIDE any function call. -/
def c1topProg : List StmtNode :=
  [ .PrintStmt (.VariableExpr ⟨.IDENTIFIER, "x", 1⟩),
    .PrintStmt (.LiteralExpr ⟨.STRING, "after", 1⟩) ]

/-- AST of `x = 1;` with no prior `let x`. -/
def c4assignProg : List StmtNode :=
  [ .ExpressionStmt (.AssignExpr ⟨.IDENTIFIER, "x", 1⟩ (.LiteralExpr ⟨.NUMBER, "1", 1⟩)) ]

/-- AST of `fn f() {} class C {} f = 1; C = 1; print y;`: two
const-reassignments followed by a further detectable error. -/
def c8prog : List StmtNode :=
  [ .FunctionDecl (.mk "f" [] []),
    .ClassNode "C" [],
    .ExpressionStmt (.AssignExpr ⟨.IDENTIFIER, "f", 1⟩ (.LiteralExpr ⟨.NUMBER, "1", 1⟩)),
    .ExpressionStmt (.AssignExpr ⟨.IDENTIFIER, "C", 1⟩ (.LiteralExpr ⟨.NUMBER, "1", 1⟩)),
    .ExpressionStmt (.VariableExpr ⟨.IDENTIFIER, "y", 1⟩) ]

/-! ## Association-list and store lemmas -/

theorem assocGet_append {β : Type} : ∀ (l1 l2 : List (String × β)) (n : String),
    assocGet (l1 ++ l2) n
      = match assocGet l1 n with
        | some v => some v
        | none => assocGet l2 n := by
  intro l1 l2 n
  induction l1 with
  | nil => simp [assocGet]
  | cons a rest ih =>
    obtain ⟨k, v⟩ := a
    by_cases h : k = n <;> simp [assocGet, h, ih]

theorem assocUpdate_keys {β : Type} : ∀ (l : List (String × β)) (n : String) (v : β),
    (assocUpdate l n v).map Prod.fst = l.map Prod.fst := by
  intro l n v
  induction l with
  | nil => rfl
  | cons a rest ih =>
    obtain ⟨k, w⟩ := a
    by_cases h : k = n <;> simp [assocUpdate, h, ih]

theorem assocGet_assocUpdate_same {β : Type} : ∀ (l : List (String × β)) (n : String) (v : β),
    (assocGet l n).isSome → assocGet (assocUpdate l n v) n = some v := by
  intro l n v h
  induction l with
  | nil => simp [assocGet] at h
  | cons a rest ih =>
    obtain ⟨k, w⟩ := a
    by_cases hk : k = n
    · simp [assocUpdate, assocGet, hk]
    · simp [assocGet, hk] at h
      simp [assocUpdate, assocGet, hk, ih h]

theorem assocGet_assocSet_same {β : Type} (l : List (String × β)) (n : String) (v : β) :
    assocGet (assocSet l n v) n = some v := by
  unfold assocSet
  by_cases h : (assocGet l n).isSome
  · simp [h, assocGet_assocUpdate_same l n v h]
  · simp [h, assocGet_append]
    simp [Option.isSome_iff_exists] at h
    cases hg : assocGet l n with
    | none => simp [assocGet]
    | some w => exact absurd hg (h w)

theorem setFrame_get : ∀ (frames : List Frame) (e j : Nat) (f : Frame),
    getFrame (setFrame frames e f) j
      = if j = e ∧ e < frames.length then f else getFrame frames j := by
  intro frames
  induction frames with
  | nil => intro e j f; simp [setFrame, getFrame]
  | cons a rest ih =>
    intro e j f
    cases e with
    | zero =>
      cases j with
      | zero => simp [setFrame, getFrame]
      | succ j0 => simp [setFrame, getFrame]
    | succ e0 =>
      cases j with
      | zero => simp [setFrame, getFrame]
      | succ j0 =>
        have : getFrame (setFrame (a :: rest) (e0 + 1) f) (j0 + 1)
            = getFrame (setFrame rest e0 f) j0 := rfl
        rw [this, ih e0 j0 f]
        by_cases hj : j0 = e0
        · subst hj
          by_cases hl : j0 < rest.length <;> simp [hl, getFrame]
        · have : ¬(j0 + 1 = e0 + 1) := by omega
          simp [hj, this, getFrame]

/-! ## Claim C1 (code bug evidence) -/

/-- C1: the spec claims every runtime error — including one raised
inside the body of a called Function — propagates to the top of the
evaluator, is reported exactly once, and evaluation terminates.  The
code disagrees: `Function::call` wraps the body in
`catch (const std::runtime_error&)` with an empty handler, so the
UndefinedVariable raised inside `f` is swallowed, the call yields nil
and evaluation continues (`after` is printed, nothing is reported).
The second conjunct shows the same error raised outside any call does
propagate, is reported once, and ends evaluation. -/
theorem functionCall_swallows_runtime_error :
    (interpret 20 c1prog).map (fun r => (r.output, r.reported))
      = some (["after"], none) ∧
    (interpret 20 c1topProg).map (fun r => (r.output, r.reported))
      = some ([], some ("Runtime error: " ++ errMessage (.undefinedVariable "x"))) := by
  exact ⟨rfl, rfl⟩

/-! ## Claim C2 (code bug evidence) -/

/-- C2: the spec claims that after a malformed declaration the parser
reports, synchronizes and RESUMES at `declaration`, so later
well-formed declarations appear in the Program.  In the code the
try/catch of `Parser::parse` wraps the whole loop: the handler
reports, synchronizes once and falls through to the return, so parsing
never resumes.  For `print ; let x = 1;` the error is reported and the
returned Program is empty, although `let x = 1;` parses fine on its
own (second conjunct, with the literal carrying the following token —
another artifact of the source's match/currentToken off-by-one). -/
theorem parse_stops_after_first_error :
    ((parseProgram 99 "print ; let x = 1;").map
      (fun r => (r.1.declarations, r.2.reports)))
      = some ([], ["Error while parsing: Expected expression"]) ∧
    ((parseProgram 99 "let x = 1;").map
      (fun r => (r.1.declarations, r.2.reports)))
      = some ([.VarStmt ⟨.IDENTIFIER, "x", 1⟩
                (some (.LiteralExpr ⟨.SEMICOLON, ";", 1⟩))], []) := by
  exact ⟨rfl, rfl⟩

/-! ## Claim C3 (code bug evidence) -/

/-- C3: the spec claims `print 1 + 2 * 3;` parses to
`Binary(1, +, Binary(2, *, 3))` and prints `7`.  In the code,
`Parser::primary` builds `LiteralExpr(currentToken)` AFTER `match`
already advanced past the number, and `term`/`factor` read the
operator token the same way; parsing `1 + 2 * 3` therefore throws
`Expected expression` at the `*`, the returned Program is empty, and
nothing is printed. -/
theorem print_arith_pipeline_result :
    (runSource 200 "print 1 + 2 * 3;").map
      (fun r => (r.program.declarations, r.parserReports, r.runOutput, r.runtimeReport))
      = some ([], ["Error while parsing: Expected expression"], [], none) := by
  exact rfl

/-! ## Claim C5 (corrected) -/

/-- C5 counterexample: the claim says that with `/` ANY non-number
operand raises TypeMismatch, and that a right operand equal to 0.0
raises DivisionByZero.  At left `"a"`, right `0.0` the code raises
DivisionByZero (the zero test on `asNumber(right)` runs before the
left operand is touched), which is not a TypeMismatch error — the
TypeMismatch clause of the claim is false there. -/
theorem slash_zero_not_typeMismatch :
    binaryOpEval .SLASH (.vstr "a") (.vnum 0) = .error .divisionByZero ∧
    RuntimeErr.isTypeMismatch .divisionByZero = false := ⟨rfl, rfl⟩

/-- C5 (amended): `+` on two numbers adds, on two strings
concatenates, otherwise raises TypeMismatch; `-` and `*` raise
TypeMismatch unless both operands are numbers; for `/` the right
operand is checked first — a non-number right operand raises
TypeMismatch, a numeric right operand equal to 0.0 raises
DivisionByZero (even when the left operand is not a number), and
otherwise a non-number left operand raises TypeMismatch, else the
quotient is produced. -/
theorem binaryOpEval_dispatch :
    (∀ a b : Rat, binaryOpEval .PLUS (.vnum a) (.vnum b) = .ok (.vnum (a + b))) ∧
    (∀ a b : String, binaryOpEval .PLUS (.vstr a) (.vstr b) = .ok (.vstr (a ++ b))) ∧
    (∀ l r : Value, (l.isNum && r.isNum) = false → (l.isStr && r.isStr) = false →
      binaryOpEval .PLUS l r = .error .plusTypeMismatch) ∧
    (∀ a b : Rat, binaryOpEval .MINUS (.vnum a) (.vnum b) = .ok (.vnum (a - b))) ∧
    (∀ a b : Rat, binaryOpEval .STAR (.vnum a) (.vnum b) = .ok (.vnum (a * b))) ∧
    (∀ l r : Value, (l.isNum && r.isNum) = false →
      binaryOpEval .MINUS l r = .error .operandNotNumber) ∧
    (∀ l r : Value, (l.isNum && r.isNum) = false →
      binaryOpEval .STAR l r = .error .operandNotNumber) ∧
    (∀ l r : Value, r.isNum = false →
      binaryOpEval .SLASH l r = .error .operandNotNumber) ∧
    (∀ l : Value, binaryOpEval .SLASH l (.vnum 0) = .error .divisionByZero) ∧
    (∀ (l : Value) (b : Rat), b ≠ 0 → l.isNum = false →
      binaryOpEval .SLASH l (.vnum b) = .error .operandNotNumber) ∧
    (∀ a b : Rat, b ≠ 0 → binaryOpEval .SLASH (.vnum a) (.vnum b) = .ok (.vnum (a / b))) := by
  refine ⟨fun a b => rfl, fun a b => rfl, ?_, fun a b => rfl, fun a b => rfl,
    ?_, ?_, ?_, ?_, ?_, ?_⟩
  · intro l r h1 h2
    cases l <;> cases r <;> simp_all [binaryOpEval, Value.isNum, Value.isStr]
  · intro l r h
    cases l <;> cases r <;> simp_all [binaryOpEval, Value.isNum]
  · intro l r h
    cases l <;> cases r <;> simp_all [binaryOpEval, Value.isNum]
  · intro l r h
    cases r <;> simp_all [binaryOpEval, Value.isNum]
  · intro l
    simp [binaryOpEval]
  · intro l b hb hl
    cases l <;> simp_all [binaryOpEval, Value.isNum]
  · intro a b hb
    simp [binaryOpEval, hb]

/-- C5 witness: the amended dispatch applied at concrete operands. -/
theorem binaryOpEval_dispatch_witness :
    binaryOpEval .SLASH (.vbool true) (.vnum 2) = .error .operandNotNumber ∧
    binaryOpEval .PLUS (.vnum 1) (.vstr "s") = .error .plusTypeMismatch := by
  constructor
  · exact binaryOpEval_dispatch.2.2.2.2.2.2.2.2.2.1 (.vbool true) 2 (by norm_num) rfl
  · exact binaryOpEval_dispatch.2.2.1 (.vnum 1) (.vstr "s") rfl rfl

/-! ## Claim C6 -/

/-- C6: the truthiness used by `If` and `While` conditions: nil is
false, a boolean is its own value, and every other value — including
the number 0 and the empty string — is true.  The final conjuncts show
`execStmt` dispatches `If`/`While` on exactly this predicate. -/
theorem isTruthy_spec :
    (isTruthy .vnil = false) ∧
    (∀ b : Bool, isTruthy (.vbool b) = b) ∧
    (∀ q : Rat, isTruthy (.vnum q) = true) ∧
    (∀ str : String, isTruthy (.vstr str) = true) ∧
    (∀ d c, isTruthy (.vfun d c) = true) ∧
    (∀ c, isTruthy (.vclass c) = true) ∧
    (∀ c, isTruthy (.vinst c) = true) ∧
    (isTruthy (.vnum 0) = true) ∧
    (isTruthy (.vstr "") = true) ∧
    (∀ v : Value, isTruthy v = true ↔ (v ≠ .vnil ∧ v ≠ .vbool false)) ∧
    (∀ fuel s c tb eb v s1, evalExpr fuel s c = .ok (v, s1) → isTruthy v = true →
      execStmt (fuel + 1) s (.IfStmt c tb eb) = execStmt fuel s1 tb) ∧
    (∀ fuel s c tb v s1, evalExpr fuel s c = .ok (v, s1) → isTruthy v = false →
      execStmt (fuel + 1) s (.IfStmt c tb none) = .ok s1) ∧
    (∀ fuel s c b v s1, evalExpr fuel s c = .ok (v, s1) → isTruthy v = false →
      execStmt (fuel + 1) s (.WhileStmt c b) = .ok s1) := by
  refine ⟨rfl, fun b => rfl, fun q => rfl, fun str => rfl, fun d c => rfl,
    fun c => rfl, fun c => rfl, rfl, rfl, ?_, ?_, ?_, ?_⟩
  · intro v
    cases v with
    | vbool b => cases b <;> simp [isTruthy]
    | _ => simp [isTruthy]
  · intro fuel s c tb eb v s1 hc ht
    simp [execStmt, hc, ht]
  · intro fuel s c tb v s1 hc ht
    simp [execStmt, hc, ht]
  · intro fuel s c b v s1 hc ht
    simp [execStmt, hc, ht]

/-- C6 witness: the `If` dispatch applied at a concrete truthy
condition (the empty string literal, which is truthy). -/
theorem isTruthy_spec_witness :
    execStmt 2 initState
      (.IfStmt (.LiteralExpr ⟨.STRING, "", 1⟩)
        (.PrintStmt (.LiteralExpr ⟨.STRING, "yes", 1⟩)) none)
      = execStmt 1 initState (.PrintStmt (.LiteralExpr ⟨.STRING, "yes", 1⟩)) := by
  exact isTruthy_spec.2.2.2.2.2.2.2.2.2.2.1 1 initState
    (.LiteralExpr ⟨.STRING, "", 1⟩)
    (.PrintStmt (.LiteralExpr ⟨.STRING, "yes", 1⟩)) none (.vstr "") initState rfl rfl

/-! ## Claim C10 -/

/-- C10: `SymbolTable::define` returns false and leaves the table
completely unchanged when the name is already defined (so the original
symbol with its type tag and isConst flag survives), and otherwise
returns true after adding exactly that one binding. -/
theorem symbolTable_define_spec (t : Scope) (sym : Symbol) :
    ((assocGet t sym.name).isSome = true → stDefine t sym = (false, t)) ∧
    (assocGet t sym.name = none →
      stDefine t sym = (true, t ++ [(sym.name, sym)]) ∧
      assocGet ((stDefine t sym).2) sym.name = some sym ∧
      (∀ k, k ≠ sym.name → assocGet ((stDefine t sym).2) k = assocGet t k)) := by
  constructor
  · intro h
    simp [stDefine, h]
  · intro h
    have hs : (assocGet t sym.name).isSome = false := by simp [h]
    refine ⟨by simp [stDefine, hs], ?_, ?_⟩
    · simp [stDefine, hs, assocGet_append, h, assocGet]
    · intro k hk
      have hk2 : ¬(sym.name = k) := fun hh => hk hh.symm
      simp only [stDefine, hs, Bool.false_eq_true, if_false]
      rw [assocGet_append]
      cases hg : assocGet t k with
      | some w => simp
      | none => simp [assocGet, hk2]

/-! ## Claim C4 -/

/-- C4: `Environment::assign` updates the innermost existing binding
of the name along the enclosing chain (first conjunct pair), raises
UndefinedVariable when no environment in the chain binds it, and never
creates a binding (every frame keeps exactly its keys, third
conjunct); consequently `x = 1;` with no prior `let x` reports
UndefinedVariable and leaves the global environment without a binding
for x (fourth conjunct). -/
theorem envAssign_innermost_or_error :
    (∀ fuel frames id name v, chainFind fuel frames id name = none →
        envAssignF fuel frames id name v = .error (.undefinedVariable name)) ∧
    (∀ fuel frames id name v e, chainFind fuel frames id name = some e →
        envAssignF fuel frames id name v
          = .ok (setFrame frames e
              { values := assocUpdate (getFrame frames e).values name v,
                enclosing := (getFrame frames e).enclosing })) ∧
    (∀ fuel frames id name v frames2, envAssignF fuel frames id name v = .ok frames2 →
        ∀ j, (getFrame frames2 j).values.map Prod.fst
              = (getFrame frames j).values.map Prod.fst) ∧
    ((interpret 10 c4assignProg).map (fun r => (r.output, r.reported, r.frames))
        = some ([], some ("Runtime error: " ++ errMessage (.undefinedVariable "x")),
                [⟨[], none⟩])) := by
  refine ⟨?_, ?_, ?_, rfl⟩
  · intro fuel
    induction fuel with
    | zero => intro frames id name v _; rfl
    | succ n ih =>
      intro frames id name v h
      simp only [chainFind] at h
      simp only [envAssignF]
      by_cases hs : (assocGet (getFrame frames id).values name).isSome
      · simp [hs] at h
      · simp only [hs, Bool.false_eq_true, if_false] at h ⊢
        cases henc : (getFrame frames id).enclosing with
        | some p =>
          simp only [henc] at h ⊢
          exact ih frames p name v h
        | none => simp [henc]
  · intro fuel
    induction fuel with
    | zero => intro frames id name v e h; simp [chainFind] at h
    | succ n ih =>
      intro frames id name v e h
      simp only [chainFind] at h
      simp only [envAssignF]
      by_cases hs : (assocGet (getFrame frames id).values name).isSome
      · simp only [hs, if_true] at h ⊢
        obtain rfl : id = e := Option.some.inj h
        rfl
      · simp only [hs, Bool.false_eq_true, if_false] at h ⊢
        cases henc : (getFrame frames id).enclosing with
        | some p =>
          simp only [henc] at h ⊢
          exact ih frames p name v e h
        | none => simp [henc] at h
  · intro fuel
    induction fuel with
    | zero => intro frames id name v frames2 h; simp [envAssignF] at h
    | succ n ih =>
      intro frames id name v frames2 h
      simp only [envAssignF] at h
      by_cases hs : (assocGet (getFrame frames id).values name).isSome
      · simp only [hs, if_true, Except.ok.injEq] at h
        subst h
        intro j
        rw [setFrame_get]
        by_cases hc : j = id ∧ id < frames.length
        · simp only [hc, if_true]
          obtain ⟨rfl, _⟩ := hc
          exact assocUpdate_keys _ name v
        · simp [hc]
      · simp only [hs, Bool.false_eq_true, if_false] at h
        cases henc : (getFrame frames id).enclosing with
        | some p =>
          simp only [henc] at h
          exact ih frames p name v frames2 h
        | none => simp [henc] at h

/-- C4 witness: assign on a chain that does not bind the name errors;
assign on a chain that binds it updates that binding in place. -/
theorem envAssign_innermost_or_error_witness :
    envAssignF 2 [⟨[("y", .vnil)], none⟩] 0 "x" (.vnum 1)
      = .error (.undefinedVariable "x") ∧
    envAssignF 2 [⟨[("x", .vnil)], none⟩] 0 "x" (.vnum 1)
      = .ok [⟨[("x", .vnum 1)], none⟩] := by
  constructor
  · exact envAssign_innermost_or_error.1 2 [⟨[("y", .vnil)], none⟩] 0 "x" (.vnum 1) rfl
  · exact (envAssign_innermost_or_error.2.1 2 [⟨[("x", .vnil)], none⟩] 0 "x"
      (.vnum 1) 0 rfl).trans rfl

/-! ## Claim C7 -/

/-- Method maps build to the expected list when the method names are
distinct and fresh for the accumulator. -/
theorem buildMethodsFold_eq (env : Nat) : ∀ (ms : List FunctionNode)
    (acc : List (String × (FunctionNode × Nat))),
    (∀ m ∈ ms, assocGet acc m.name = none) → (ms.map FunctionNode.name).Nodup →
    buildMethodsFold env ms acc = acc ++ ms.map (fun m => (m.name, (m, env))) := by
  intro ms
  induction ms with
  | nil => intro acc _ _; simp [buildMethodsFold]
  | cons m rest ih =>
    intro acc hfresh hnodup
    have hm : assocGet acc m.name = none := hfresh m (by simp)
    have hset : assocSet acc m.name (m, env) = acc ++ [(m.name, (m, env))] := by
      simp [assocSet, hm]
    obtain ⟨hnotin, htail⟩ := List.nodup_cons.mp hnodup
    rw [buildMethodsFold, hset, ih (acc ++ [(m.name, (m, env))]) ?_ htail]
    · simp
    · intro m2 hm2
      rw [assocGet_append, hfresh m2 (by simp [hm2])]
      have hne : ¬(m.name = m2.name) := by
        intro hh
        exact hnotin (hh ▸ List.mem_map_of_mem FunctionNode.name hm2)
      simp [assocGet, hne]

/-- C7: evaluating a Class declaration first defines the name (as nil)
in the current environment, then builds the method map with the
current environment as every closure, then assigns the finished class
over the nil binding.  Observable consequences proved here: the
evaluation succeeds for EVERY state — even one where the name is bound
nowhere, which is only possible because `define` runs before `assign`;
the final current environment maps the name to the class; every method
closes over exactly the current environment; and looking the class
name up through any method's closure finds the class (so methods can
refer to their class recursively). -/
theorem classNode_forward_declaration (fuel : Nat) (s : InterpState) (name : String)
    (methods : List FunctionNode)
    (henv : s.env < s.frames.length)
    (hnodup : (methods.map FunctionNode.name).Nodup) :
    ∃ s' : InterpState,
      execStmt (fuel + 1) s (.ClassNode name methods) = .ok s' ∧
      s'.env = s.env ∧ s'.output = s.output ∧
      assocGet (getFrame s'.frames s.env).values name
        = some (.vclass ⟨name, methods.map (fun m => (m.name, (m, s.env)))⟩) ∧
      envGetF (s'.frames.length + 1) s'.frames s.env name
        = .ok (.vclass ⟨name, methods.map (fun m => (m.name, (m, s.env)))⟩) := by
  set f := getFrame s.frames s.env with hf
  set klass : Value := .vclass ⟨name, methods.map (fun m => (m.name, (m, s.env)))⟩ with hk
  set frames1 := setFrame s.frames s.env
    { values := assocSet f.values name .vnil, enclosing := f.enclosing } with hfr1
  set frames2 := setFrame frames1 s.env
    { values := assocUpdate (assocSet f.values name .vnil) name klass,
      enclosing := f.enclosing } with hfr2
  have hlen1 : frames1.length = s.frames.length := by
    simp [hfr1, setFrame]
  have hget1 : getFrame frames1 s.env
      = { values := assocSet f.values name .vnil, enclosing := f.enclosing } := by
    rw [hfr1, setFrame_get]
    simp [henv]
  have hsome : (assocGet (getFrame frames1 s.env).values name).isSome := by
    rw [hget1]
    simp [assocGet_assocSet_same]
  have hms : buildMethodsFold s.env methods []
      = methods.map (fun m => (m.name, (m, s.env))) := by
    have := buildMethodsFold_eq s.env methods [] (by intro m _; rfl) hnodup
    simpa using this
  have hassign : envAssign ⟨frames1, s.env, s.output⟩ name klass
      = .ok ⟨frames2, s.env, s.output⟩ := by
    unfold envAssign
    have : envAssignF (frames1.length + 1) frames1 s.env name klass = .ok frames2 := by
      rw [envAssignF]
      simp only [hsome, if_true]
      rw [hget1, hfr2]
    rw [this]
    rfl
  refine ⟨⟨frames2, s.env, s.output⟩, ?_, rfl, rfl, ?_, ?_⟩
  · show execStmt (fuel + 1) s (.ClassNode name methods) = _
    rw [execStmt]
    have hdef : envDefine s name .vnil = ⟨frames1, s.env, s.output⟩ := by
      rw [hfr1]; rfl
    rw [hdef]
    have henv1 : (InterpState.mk frames1 s.env s.output).env = s.env := rfl
    rw [henv1, hms, ← hk, hassign]
  · have hget2 : getFrame frames2 s.env
        = { values := assocUpdate (assocSet f.values name .vnil) name klass,
            enclosing := f.enclosing } := by
      rw [hfr2, setFrame_get]
      simp [hlen1, henv]
    rw [hget2]
    exact assocGet_assocUpdate_same _ name klass (by simp [assocGet_assocSet_same])
  · rw [envGetF]
    have hget2 : getFrame frames2 s.env
        = { values := assocUpdate (assocSet f.values name .vnil) name klass,
            enclosing := f.enclosing } := by
      rw [hfr2, setFrame_get]
      simp [hlen1, henv]
    rw [hget2]
    have : assocGet (assocUpdate (assocSet f.values name .vnil) name klass) name
        = some klass :=
      assocGet_assocUpdate_same _ name klass (by simp [assocGet_assocSet_same])
    rw [this]

/-- C7 witness: the class-declaration theorem applied in the initial
state to `class C { fn m() {} }`. -/
theorem classNode_forward_declaration_witness :
    ∃ s' : InterpState,
      execStmt 1 initState (.ClassNode "C" [.mk "m" [] []]) = .ok s' ∧
      s'.env = initState.env ∧ s'.output = initState.output ∧
      assocGet (getFrame s'.frames initState.env).values "C"
        = some (.vclass ⟨"C", [("m", (.mk "m" [] [], initState.env))]⟩) ∧
      envGetF (s'.frames.length + 1) s'.frames initState.env "C"
        = .ok (.vclass ⟨"C", [("m", (.mk "m" [] [], initState.env))]⟩) :=
  classNode_forward_declaration 0 initState "C" [.mk "m" [] []]
    (by decide) (by simp)

/-! ## Semantic-walk lemmas (for claim C8) -/

/-- The semantic walk only ever mutates the innermost scope: walking
any construct from a chain `h :: t` returns a chain `h2 :: t` with the
outer scopes untouched. -/
theorem semWalk_tail : ∀ fuel : Nat,
    (∀ (st : StmtNode) (h : Scope) (t : List Scope) (d : List String),
      ∃ h2, (semStmt fuel (h :: t) d st).1 = h2 :: t) ∧
    (∀ (ss : List StmtNode) (h : Scope) (t : List Scope) (d : List String),
      ∃ h2, (semStmts fuel (h :: t) d ss).1 = h2 :: t) ∧
    (∀ (fn : FunctionNode) (h : Scope) (t : List Scope) (d : List String),
      ∃ h2, (semFunctionNode fuel (h :: t) d fn).1 = h2 :: t) ∧
    (∀ (ms : List FunctionNode) (h : Scope) (t : List Scope) (d : List String),
      ∃ h2, (semMethods fuel (h :: t) d ms).1 = h2 :: t) := by
  intro fuel
  induction fuel with
  | zero =>
    refine ⟨?_, ?_, ?_, ?_⟩ <;> intro x h t d <;> exact ⟨h, rfl⟩
  | succ n ih =>
    obtain ⟨ihStmt, ihStmts, ihFn, ihMs⟩ := ih
    refine ⟨?_, ?_, ?_, ?_⟩
    · intro st h t d
      cases st with
      | ExpressionStmt e => exact ⟨h, rfl⟩
      | PrintStmt e => exact ⟨h, rfl⟩
      | VarStmt tok ini =>
        refine ⟨(stDefine h ⟨tok.lexeme, "", false⟩).2, ?_⟩
        cases ini <;> (simp only [semStmt]; split <;> rfl)
      | BlockStmt ss =>
        obtain ⟨h2, e2⟩ := ihStmts ss [] (h :: t) d
        refine ⟨h, ?_⟩
        simp only [semStmt]
        rw [e2]
      | IfStmt c tb eb =>
        obtain ⟨h1, e1⟩ := ihStmt tb h t (semExpr n (h :: t) d c)
        cases eb with
        | none =>
          refine ⟨h1, ?_⟩
          simp only [semStmt]
          exact e1
        | some e =>
          obtain ⟨h2, e2⟩ := ihStmt e h1 t
            (semStmt n (h :: t) (semExpr n (h :: t) d c) tb).2
          refine ⟨h2, ?_⟩
          simp only [semStmt]
          rw [e1]
          exact e2
      | WhileStmt c b =>
        obtain ⟨h2, e2⟩ := ihStmt b h t (semExpr n (h :: t) d c)
        refine ⟨h2, ?_⟩
        simp only [semStmt]
        exact e2
      | FunctionDecl fn =>
        obtain ⟨h2, e2⟩ := ihFn fn h t d
        refine ⟨h2, ?_⟩
        simp only [semStmt]
        exact e2
      | ClassNode name methods =>
        obtain ⟨hm, em⟩ := ihMs methods []
          ((stDefine h ⟨name, "class", true⟩).2 :: t)
          (if (stDefine h ⟨name, "class", true⟩).1 then d
           else d ++ [semDiagDupClass name])
        refine ⟨(stDefine h ⟨name, "class", true⟩).2, ?_⟩
        simp only [semStmt]
        rw [em]
    · intro ss h t d
      cases ss with
      | nil => exact ⟨h, rfl⟩
      | cons s rest =>
        obtain ⟨h1, e1⟩ := ihStmt s h t d
        obtain ⟨h2, e2⟩ := ihStmts rest h1 t (semStmt n (h :: t) d s).2
        refine ⟨h2, ?_⟩
        simp only [semStmts]
        rw [e1]
        exact e2
    · intro fn h t d
      obtain ⟨hb, eb⟩ := ihStmts fn.body
        (semParamsFold fn.params []
          (if (stDefine h ⟨fn.name, "function", true⟩).1 then d
           else d ++ [semDiagDupFn fn.name])).1
        ((stDefine h ⟨fn.name, "function", true⟩).2 :: t)
        (semParamsFold fn.params []
          (if (stDefine h ⟨fn.name, "function", true⟩).1 then d
           else d ++ [semDiagDupFn fn.name])).2
      refine ⟨(stDefine h ⟨fn.name, "function", true⟩).2, ?_⟩
      simp only [semFunctionNode]
      rw [eb]
    · intro ms h t d
      cases ms with
      | nil => exact ⟨h, rfl⟩
      | cons m rest =>
        obtain ⟨h1, e1⟩ := ihFn m h t d
        obtain ⟨h2, e2⟩ := ihMs rest h1 t (semFunctionNode n (h :: t) d m).2
        refine ⟨h2, ?_⟩
        simp only [semMethods]
        rw [e1]
        exact e2

/-- Parameter definition only appends diagnostics. -/
theorem semParamsFold_mono : ∀ (ps : List String) (scp : Scope) (d : List String),
    ∃ d2, (semParamsFold ps scp d).2 = d ++ d2 := by
  intro ps
  induction ps with
  | nil => intro scp d; exact ⟨[], by simp [semParamsFold]⟩
  | cons p rest ih =>
    intro scp d
    simp only [semParamsFold]
    cases hr : (stDefine scp ⟨p, "", false⟩).1 with
    | true =>
      simp only [if_true]
      exact ih _ d
    | false =>
      simp only [Bool.false_eq_true, if_false]
      obtain ⟨d2, e2⟩ := ih (stDefine scp ⟨p, "", false⟩).2 (d ++ [semDiagDupParam p])
      exact ⟨[semDiagDupParam p] ++ d2, by rw [e2]; simp⟩

/-- The semantic walk never drops diagnostics: whatever was reported
before a visit is a prefix of what is reported after it (the pass is
non-fatal and continues to completion). -/
theorem semWalk_mono : ∀ fuel : Nat,
    (∀ (e : ExprNode) (sc : List Scope) (d : List String),
      ∃ d2, semExpr fuel sc d e = d ++ d2) ∧
    (∀ (es : List ExprNode) (sc : List Scope) (d : List String),
      ∃ d2, semExprList fuel sc d es = d ++ d2) ∧
    (∀ (st : StmtNode) (sc : List Scope) (d : List String),
      ∃ d2, (semStmt fuel sc d st).2 = d ++ d2) ∧
    (∀ (ss : List StmtNode) (sc : List Scope) (d : List String),
      ∃ d2, (semStmts fuel sc d ss).2 = d ++ d2) ∧
    (∀ (fn : FunctionNode) (sc : List Scope) (d : List String),
      ∃ d2, (semFunctionNode fuel sc d fn).2 = d ++ d2) ∧
    (∀ (ms : List FunctionNode) (sc : List Scope) (d : List String),
      ∃ d2, (semMethods fuel sc d ms).2 = d ++ d2) := by
  intro fuel
  induction fuel with
  | zero =>
    refine ⟨?_, ?_, ?_, ?_, ?_, ?_⟩ <;> intro x sc d <;> exact ⟨[], by simp [semExpr,
      semExprList, semStmt, semStmts, semFunctionNode, semMethods]⟩
  | succ n ih =>
    obtain ⟨ihE, ihEs, ihS, ihSs, ihF, ihMs⟩ := ih
    refine ⟨?_, ?_, ?_, ?_, ?_, ?_⟩
    · intro e sc d
      cases e with
      | BinaryExpr l op r =>
        obtain ⟨a, ea⟩ := ihE l sc d
        obtain ⟨b, eb⟩ := ihE r sc (semExpr n sc d l)
        refine ⟨a ++ b, ?_⟩
        simp only [semExpr]
        rw [eb, ea, List.append_assoc]
      | LiteralExpr tok => exact ⟨[], by simp [semExpr]⟩
      | VariableExpr tok =>
        simp only [semExpr]
        cases resolveScopes sc tok.lexeme with
        | some sym => exact ⟨[], by simp⟩
        | none => exact ⟨[semDiagUndefined tok.lexeme], rfl⟩
      | AssignExpr tok value =>
        obtain ⟨a, ea⟩ := ihE value sc d
        simp only [semExpr]
        cases resolveScopes sc tok.lexeme with
        | none =>
          refine ⟨a ++ [semDiagUndefined tok.lexeme], ?_⟩
          rw [ea, List.append_assoc]
        | some sym =>
          cases hc : sym.isConst with
          | true =>
            refine ⟨a ++ [semDiagConst tok.lexeme], ?_⟩
            simp [hc, ea, List.append_assoc]
          | false =>
            refine ⟨a, ?_⟩
            simp [hc, ea]
      | CallExpr callee paren args =>
        obtain ⟨a, ea⟩ := ihE callee sc d
        obtain ⟨b, eb⟩ := ihEs args sc (semExpr n sc d callee)
        refine ⟨a ++ b, ?_⟩
        simp only [semExpr]
        rw [eb, ea, List.append_assoc]
    · intro es sc d
      cases es with
      | nil => exact ⟨[], by simp [semExprList]⟩
      | cons e rest =>
        obtain ⟨a, ea⟩ := ihE e sc d
        obtain ⟨b, eb⟩ := ihEs rest sc (semExpr n sc d e)
        refine ⟨a ++ b, ?_⟩
        simp only [semExprList]
        rw [eb, ea, List.append_assoc]
    · intro st sc d
      cases st with
      | ExpressionStmt e =>
        obtain ⟨a, ea⟩ := ihE e sc d
        exact ⟨a, by simp only [semStmt]; exact ea⟩
      | PrintStmt e =>
        obtain ⟨a, ea⟩ := ihE e sc d
        exact ⟨a, by simp only [semStmt]; exact ea⟩
      | VarStmt tok ini =>
        have hd1 : ∃ a, (match ini with
            | some e => semExpr n sc d e
            | none => d) = d ++ a := by
          cases ini with
          | some e => exact ihE e sc d
          | none => exact ⟨[], by simp⟩
        obtain ⟨a, ea⟩ := hd1
        simp only [semStmt]
        cases sc with
        | nil => exact ⟨a, by simp only; exact ea⟩
        | cons h t =>
          cases hr : (stDefine h ⟨tok.lexeme, "", false⟩).1 with
          | true =>
            refine ⟨a, ?_⟩
            simp only [hr, if_true]
            exact ea
          | false =>
            refine ⟨a ++ [semDiagDupVar tok.lexeme], ?_⟩
            simp only [hr, Bool.false_eq_true, if_false]
            rw [ea, List.append_assoc]
      | BlockStmt ss =>
        obtain ⟨a, ea⟩ := ihSs ss ([] :: sc) d
        refine ⟨a, ?_⟩
        simp only [semStmt]
        cases hr : (semStmts n ([] :: sc) d ss).1 with
        | nil => exact ea
        | cons x t2 => exact ea
      | IfStmt c tb eb =>
        obtain ⟨a, ea⟩ := ihE c sc d
        obtain ⟨b, ebb⟩ := ihS tb sc (semExpr n sc d c)
        cases eb with
        | none =>
          refine ⟨a ++ b, ?_⟩
          simp only [semStmt]
          rw [ebb, ea, List.append_assoc]
        | some e2 =>
          obtain ⟨c2, ec2⟩ := ihS e2 (semStmt n sc (semExpr n sc d c) tb).1
            (semStmt n sc (semExpr n sc d c) tb).2
          refine ⟨a ++ (b ++ c2), ?_⟩
          simp only [semStmt]
          rw [ec2, ebb, ea]
          simp [List.append_assoc]
      | WhileStmt c b =>
        obtain ⟨a, ea⟩ := ihE c sc d
        obtain ⟨b2, eb2⟩ := ihS b sc (semExpr n sc d c)
        refine ⟨a ++ b2, ?_⟩
        simp only [semStmt]
        rw [eb2, ea, List.append_assoc]
      | FunctionDecl fn =>
        obtain ⟨a, ea⟩ := ihF fn sc d
        exact ⟨a, by simp only [semStmt]; exact ea⟩
      | ClassNode name methods =>
        cases sc with
        | nil => exact ⟨[], by simp [semStmt]⟩
        | cons h t =>
          have hd1 : ∃ a, (if (stDefine h ⟨name, "class", true⟩).1 then d
              else d ++ [semDiagDupClass name]) = d ++ a := by
            cases (stDefine h ⟨name, "class", true⟩).1
            · exact ⟨[semDiagDupClass name], by simp⟩
            · exact ⟨[], by simp⟩
          obtain ⟨a, ea⟩ := hd1
          obtain ⟨b, eb⟩ := ihMs methods ([] :: (stDefine h ⟨name, "class", true⟩).2 :: t)
            (if (stDefine h ⟨name, "class", true⟩).1 then d
             else d ++ [semDiagDupClass name])
          refine ⟨a ++ b, ?_⟩
          simp only [semStmt]
          cases hr : (semMethods n ([] :: (stDefine h ⟨name, "class", true⟩).2 :: t)
              (if (stDefine h ⟨name, "class", true⟩).1 then d
               else d ++ [semDiagDupClass name]) methods).1 with
          | nil => exact eb.trans (by rw [ea, List.append_assoc])
          | cons x t2 => exact eb.trans (by rw [ea, List.append_assoc])
    · intro ss sc d
      cases ss with
      | nil => exact ⟨[], by simp [semStmts]⟩
      | cons s rest =>
        obtain ⟨a, ea⟩ := ihS s sc d
        obtain ⟨b, eb⟩ := ihSs rest (semStmt n sc d s).1 (semStmt n sc d s).2
        refine ⟨a ++ b, ?_⟩
        simp only [semStmts]
        rw [eb, ea, List.append_assoc]
    · intro fn sc d
      cases sc with
      | nil => exact ⟨[], by simp [semFunctionNode]⟩
      | cons h t =>
        have hd1 : ∃ a, (if (stDefine h ⟨fn.name, "function", true⟩).1 then d
            else d ++ [semDiagDupFn fn.name]) = d ++ a := by
          cases (stDefine h ⟨fn.name, "function", true⟩).1
          · exact ⟨[semDiagDupFn fn.name], by simp⟩
          · exact ⟨[], by simp⟩
        obtain ⟨a, ea⟩ := hd1
        obtain ⟨b, eb⟩ := semParamsFold_mono fn.params []
          (if (stDefine h ⟨fn.name, "function", true⟩).1 then d
           else d ++ [semDiagDupFn fn.name])
        obtain ⟨c, ec⟩ := ihSs fn.body
          ((semParamsFold fn.params []
            (if (stDefine h ⟨fn.name, "function", true⟩).1 then d
             else d ++ [semDiagDupFn fn.name])).1 :: (stDefine h ⟨fn.name, "function", true⟩).2 :: t)
          (semParamsFold fn.params []
            (if (stDefine h ⟨fn.name, "function", true⟩).1 then d
             else d ++ [semDiagDupFn fn.name])).2
        refine ⟨a ++ (b ++ c), ?_⟩
        simp only [semFunctionNode]
        cases hr : (semStmts n
            ((semParamsFold fn.params []
              (if (stDefine h ⟨fn.name, "function", true⟩).1 then d
               else d ++ [semDiagDupFn fn.name])).1 :: (stDefine h ⟨fn.name, "function", true⟩).2 :: t)
            (semParamsFold fn.params []
              (if (stDefine h ⟨fn.name, "function", true⟩).1 then d
               else d ++ [semDiagDupFn fn.name])).2 fn.body).1 with
        | nil => exact ec.trans (by rw [eb, ea]; simp [List.append_assoc])
        | cons x t2 => exact ec.trans (by rw [eb, ea]; simp [List.append_assoc])
    · intro ms sc d
      cases ms with
      | nil => exact ⟨[], by simp [semMethods]⟩
      | cons m rest =>
        obtain ⟨a, ea⟩ := ihF m sc d
        obtain ⟨b, eb⟩ := ihMs rest (semFunctionNode n sc d m).1 (semFunctionNode n sc d m).2
        refine ⟨a ++ b, ?_⟩
        simp only [semMethods]
        rw [eb, ea, List.append_assoc]

/-! ## Claim C8 -/

/-- C8: `visit(FunctionNode)` and `visit(ClassNode)` record the
declared name as a const symbol (type tag `"function"`/`"class"`,
`isConst = true`) in the current scope — conjuncts 1 and 2 show the
outer scope after the visit is exactly the scope with that symbol
defined; every Assign whose name resolves to a const symbol appends
the AssignToConst diagnostic (conjunct 3); the walk never drops
diagnostics (conjunct 4, non-fatal pass); and on a program with a fn
declaration, a class declaration, two const reassignments and a later
undefined reference, all three diagnostics are reported in order
(conjunct 5: the pass completes the full walk). -/
theorem semantic_const_protection :
    (∀ (fuel : Nat) (fn : FunctionNode) (h : Scope) (t : List Scope) (d : List String),
      ∃ d2, semFunctionNode (fuel + 1) (h :: t) d fn
        = ((stDefine h ⟨fn.name, "function", true⟩).2 :: t, d2)) ∧
    (∀ (fuel : Nat) (name : String) (ms : List FunctionNode) (h : Scope)
        (t : List Scope) (d : List String),
      ∃ d2, semStmt (fuel + 1) (h :: t) d (.ClassNode name ms)
        = ((stDefine h ⟨name, "class", true⟩).2 :: t, d2)) ∧
    (∀ (fuel : Nat) (tok : Token) (value : ExprNode) (sc : List Scope)
        (d : List String) (sym : Symbol),
      resolveScopes sc tok.lexeme = some sym → sym.isConst = true →
      semExpr (fuel + 1) sc d (.AssignExpr tok value)
        = semExpr fuel sc d value ++ [semDiagConst tok.lexeme]) ∧
    (∀ (fuel : Nat) (st : StmtNode) (sc : List Scope) (d : List String),
      ∃ d2, (semStmt fuel sc d st).2 = d ++ d2) ∧
    (analyzeProgram 50 c8prog
      = [semDiagConst "f", semDiagConst "C", semDiagUndefined "y"]) := by
  refine ⟨?_, ?_, ?_, ?_, rfl⟩
  · intro fuel fn h t d
    obtain ⟨hb, eb⟩ := (semWalk_tail fuel).2.1 fn.body
      (semParamsFold fn.params []
        (if (stDefine h ⟨fn.name, "function", true⟩).1 then d
         else d ++ [semDiagDupFn fn.name])).1
      ((stDefine h ⟨fn.name, "function", true⟩).2 :: t)
      (semParamsFold fn.params []
        (if (stDefine h ⟨fn.name, "function", true⟩).1 then d
         else d ++ [semDiagDupFn fn.name])).2
    refine ⟨(semStmts fuel
        ((semParamsFold fn.params []
          (if (stDefine h ⟨fn.name, "function", true⟩).1 then d
           else d ++ [semDiagDupFn fn.name])).1 ::
          (stDefine h ⟨fn.name, "function", true⟩).2 :: t)
        (semParamsFold fn.params []
          (if (stDefine h ⟨fn.name, "function", true⟩).1 then d
           else d ++ [semDiagDupFn fn.name])).2 fn.body).2, ?_⟩
    simp only [semFunctionNode]
    rw [eb]
  · intro fuel name ms h t d
    obtain ⟨hm, em⟩ := (semWalk_tail fuel).2.2.2 ms []
      ((stDefine h ⟨name, "class", true⟩).2 :: t)
      (if (stDefine h ⟨name, "class", true⟩).1 then d
       else d ++ [semDiagDupClass name])
    refine ⟨(semMethods fuel ([] :: (stDefine h ⟨name, "class", true⟩).2 :: t)
      (if (stDefine h ⟨name, "class", true⟩).1 then d
       else d ++ [semDiagDupClass name]) ms).2, ?_⟩
    simp only [semStmt]
    rw [em]
  · intro fuel tok value sc d sym hres hconst
    simp only [semExpr, hres]
    simp [hconst]
  · intro fuel st sc d
    exact (semWalk_mono fuel).2.2.1 st sc d

/-- C8 witness: the const-assign conjunct applied in a scope chain
binding `f` to a function symbol. -/
theorem semantic_const_protection_witness :
    semExpr 1 [[("f", ⟨"f", "function", true⟩)]] []
      (.AssignExpr ⟨.IDENTIFIER, "f", 1⟩ (.LiteralExpr ⟨.NUMBER, "1", 1⟩))
      = semExpr 0 [[("f", ⟨"f", "function", true⟩)]] []
          (.LiteralExpr ⟨.NUMBER, "1", 1⟩) ++ [semDiagConst "f"] :=
  semantic_const_protection.2.2.1 0 ⟨.IDENTIFIER, "f", 1⟩
    (.LiteralExpr ⟨.NUMBER, "1", 1⟩) [[("f", ⟨"f", "function", true⟩)]] []
    ⟨"f", "function", true⟩ rfl rfl

/-! ## Lexer lemmas (for claim C9) -/

theorem scanWhileF_state : ∀ (f : Nat) (p : LexState → Bool) (s : LexState),
    (scanWhileF f p s).src = s.src ∧ s.i ≤ (scanWhileF f p s).i := by
  intro f
  induction f with
  | zero => intro p s; exact ⟨rfl, Nat.le_refl _⟩
  | succ n ih =>
    intro p s
    simp only [scanWhileF]
    by_cases hp : p s
    · simp only [hp, if_true]
      obtain ⟨h1, h2⟩ := ih p (lexAdv s)
      refine ⟨h1, ?_⟩
      have h2x : s.i + 1 ≤ (scanWhileF n p (lexAdv s)).i := h2
      omega
    · simp [hp]

theorem skipWsF_state : ∀ (f : Nat) (s : LexState),
    (skipWsF f s).src = s.src ∧ s.i ≤ (skipWsF f s).i := by
  intro f
  induction f with
  | zero => intro s; exact ⟨rfl, Nat.le_refl _⟩
  | succ n ih =>
    intro s
    simp only [skipWsF]
    by_cases h1 : lexPeek s = ' ' ∨ lexPeek s = '\r' ∨ lexPeek s = '\t'
    · simp only [h1, if_true]
      obtain ⟨ha, hb⟩ := ih (lexAdv s)
      refine ⟨ha, ?_⟩
      have hbx : s.i + 1 ≤ (skipWsF n (lexAdv s)).i := hb
      omega
    · simp only [h1, if_false]
      by_cases h2 : lexPeek s = '\n'
      · simp only [h2, if_true]
        obtain ⟨ha, hb⟩ := ih { s with i := s.i + 1, line := s.line + 1 }
        refine ⟨ha, ?_⟩
        have hbx : s.i + 1 ≤ (skipWsF n { s with i := s.i + 1, line := s.line + 1 }).i := hb
        omega
      · simp [h2]

theorem skipWhitespace_state (s : LexState) :
    (skipWhitespace s).src = s.src ∧ s.i ≤ (skipWhitespace s).i :=
  skipWsF_state (s.src.length - s.i) s

theorem scanStrF_state : ∀ (f : Nat) (s : LexState),
    (scanStrF f s).src = s.src ∧ s.i ≤ (scanStrF f s).i := by
  intro f
  induction f with
  | zero => intro s; exact ⟨rfl, Nat.le_refl _⟩
  | succ n ih =>
    intro s
    simp only [scanStrF]
    by_cases h1 : lexPeek s = '"'
    · simp [h1]
    · simp only [h1, if_false]
      by_cases h2 : lexIsAtEnd s
      · simp [h2]
      · simp only [h2, Bool.false_eq_true, if_false]
        by_cases h3 : lexPeek s = '\n'
        · simp only [h3, if_true]
          obtain ⟨ha, hb⟩ := ih { s with i := s.i + 1, line := s.line + 1 }
          refine ⟨ha, ?_⟩
          have hbx : s.i + 1 ≤ (scanStrF n { s with i := s.i + 1, line := s.line + 1 }).i := hb
          omega
        · simp only [h3, if_false]
          obtain ⟨ha, hb⟩ := ih (lexAdv s)
          refine ⟨ha, ?_⟩
          have hbx : s.i + 1 ≤ (scanStrF n (lexAdv s)).i := hb
          omega

theorem lexMatch_state (c : Char) (s : LexState) :
    (lexMatch c s).2.src = s.src ∧ s.i ≤ (lexMatch c s).2.i := by
  unfold lexMatch
  split_ifs <;> simp [lexAdv]

theorem twoCharTok_state (expected : Char) (two one : TokenType)
    (twoLex oneLex : String) (s : LexState) :
    (twoCharTok expected two one twoLex oneLex s).2.src = s.src ∧
    s.i ≤ (twoCharTok expected two one twoLex oneLex s).2.i := by
  have h := lexMatch_state expected s
  rcases hm : lexMatch expected s with ⟨b, s2⟩
  rw [hm] at h
  cases b <;> simp only [twoCharTok, hm] <;> exact h

theorem identifierTok_state (s : LexState) :
    (identifierTok s).2.src = s.src ∧ s.i ≤ (identifierTok s).2.i := by
  exact scanWhileF_state (s.src.length - s.i)
    (fun st => isAlnumCh (lexPeek st) || lexPeek st = '_') s

theorem numberTok_state (s : LexState) :
    (numberTok s).2.src = s.src ∧ s.i ≤ (numberTok s).2.i := by
  have h1 := scanWhileF_state (s.src.length - s.i) (fun st => isDigitCh (lexPeek st)) s
  simp only [numberTok]
  set s1 := scanWhileF (s.src.length - s.i) (fun st => isDigitCh (lexPeek st)) s with hs1
  split_ifs with hdot
  · have h2 := scanWhileF_state ((lexAdv s1).src.length - (lexAdv s1).i)
      (fun st => isDigitCh (lexPeek st)) (lexAdv s1)
    refine ⟨by rw [h2.1]; exact h1.1, ?_⟩
    have h2x : s1.i + 1 ≤ (scanWhileF ((lexAdv s1).src.length - (lexAdv s1).i)
      (fun st => isDigitCh (lexPeek st)) (lexAdv s1)).i := h2.2
    have h1x : s.i ≤ s1.i := h1.2
    omega
  · exact h1

theorem stringTok_state (s : LexState) :
    (stringTok s).2.src = s.src ∧ s.i ≤ (stringTok s).2.i := by
  have h := scanStrF_state (s.src.length - s.i) s
  simp only [stringTok]
  set s1 := scanStrF (s.src.length - s.i) s with hs1
  split_ifs with hend
  · exact h
  · refine ⟨h.1, ?_⟩
    show s.i ≤ (lexAdv s1).i
    have hx : s.i ≤ s1.i := h.2
    have hadv : (lexAdv s1).i = s1.i + 1 := rfl
    omega

set_option maxHeartbeats 1000000 in
theorem dispatchTok_state (c : Char) (s : LexState) :
    (dispatchTok c s).2.src = s.src ∧ s.i ≤ (dispatchTok c s).2.i := by
  unfold dispatchTok
  by_cases h1 : (isAlphaCh c || c = '_') = true
  · rw [if_pos h1]; exact identifierTok_state s
  rw [if_neg h1]
  by_cases h2 : isDigitCh c = true
  · rw [if_pos h2]; exact numberTok_state s
  rw [if_neg h2]
  by_cases h3 : c = '('
  · rw [if_pos h3]; exact ⟨rfl, Nat.le_refl _⟩
  rw [if_neg h3]
  by_cases h4 : c = ')'
  · rw [if_pos h4]; exact ⟨rfl, Nat.le_refl _⟩
  rw [if_neg h4]
  by_cases h5 : c = '\x7b'
  · rw [if_pos h5]; exact ⟨rfl, Nat.le_refl _⟩
  rw [if_neg h5]
  by_cases h6 : c = '\x7d'
  · rw [if_pos h6]; exact ⟨rfl, Nat.le_refl _⟩
  rw [if_neg h6]
  by_cases h7 : c = ','
  · rw [if_pos h7]; exact ⟨rfl, Nat.le_refl _⟩
  rw [if_neg h7]
  by_cases h8 : c = '.'
  · rw [if_pos h8]; exact ⟨rfl, Nat.le_refl _⟩
  rw [if_neg h8]
  by_cases h9 : c = ';'
  · rw [if_pos h9]; exact ⟨rfl, Nat.le_refl _⟩
  rw [if_neg h9]
  by_cases h10 : c = '+'
  · rw [if_pos h10]; exact ⟨rfl, Nat.le_refl _⟩
  rw [if_neg h10]
  by_cases h11 : c = '-'
  · rw [if_pos h11]; exact ⟨rfl, Nat.le_refl _⟩
  rw [if_neg h11]
  by_cases h12 : c = '*'
  · rw [if_pos h12]; exact ⟨rfl, Nat.le_refl _⟩
  rw [if_neg h12]
  by_cases h13 : c = '='
  · rw [if_pos h13]; exact twoCharTok_state '=' .EQUAL_EQUAL .ASSIGN "==" "=" s
  rw [if_neg h13]
  by_cases h14 : c = '!'
  · rw [if_pos h14]; exact twoCharTok_state '=' .BANG_EQUAL .BANG "!=" "!" s
  rw [if_neg h14]
  by_cases h15 : c = '<'
  · rw [if_pos h15]; exact twoCharTok_state '=' .LESS_EQUAL .LESS "<=" "<" s
  rw [if_neg h15]
  by_cases h16 : c = '>'
  · rw [if_pos h16]; exact twoCharTok_state '=' .GREATER_EQUAL .GREATER ">=" ">" s
  rw [if_neg h16]
  by_cases h17 : c = '"'
  · rw [if_pos h17]; exact stringTok_state s
  rw [if_neg h17]
  exact ⟨rfl, Nat.le_refl _⟩

/-- Progress and fuel sufficiency for `nextTokenF`: with fuel
exceeding the remaining input the scan yields a token, and every
produced token is either the end-of-input sentinel or was produced by
consuming at least one character. -/
theorem nextTokenF_props : ∀ (fuel : Nat) (s : LexState),
    (s.src.length - s.i < fuel → (nextTokenF fuel s).isSome) ∧
    (∀ t s2, nextTokenF fuel s = some (t, s2) →
      s2.src = s.src ∧ (t.type = .END_OF_FILE ∨ s.i < s2.i)) := by
  intro fuel
  induction fuel with
  | zero =>
    intro s
    constructor
    · intro h; omega
    · intro t s2 h; exact absurd h (by simp [nextTokenF])
  | succ n ih =>
    intro s0
    obtain ⟨hWs, hWi⟩ := skipWhitespace_state s0
    constructor
    · intro hfuel
      simp only [nextTokenF]
      by_cases hlt : (skipWhitespace s0).i < (skipWhitespace s0).src.length
      · rw [dif_pos hlt]
        by_cases hc : (skipWhitespace s0).src.get ⟨(skipWhitespace s0).i, hlt⟩ = '/'
        · rw [if_pos hc]
          have hms := lexMatch_state '/' (lexAdv (skipWhitespace s0))
          rcases hm : lexMatch '/' (lexAdv (skipWhitespace s0)) with ⟨b, s2x⟩
          rw [hm] at hms
          have hms1 : s2x.src = (lexAdv (skipWhitespace s0)).src := hms.1
          have hms2 : (skipWhitespace s0).i + 1 ≤ s2x.i := hms.2
          cases b
          · simp
          · show (nextTokenF n (scanWhileF (s2x.src.length - s2x.i)
              (fun st => lexPeek st ≠ '\n' && !lexIsAtEnd st) s2x)).isSome
            obtain ⟨hsw1, hsw2⟩ := scanWhileF_state (s2x.src.length - s2x.i)
              (fun st => lexPeek st ≠ '\n' && !lexIsAtEnd st) s2x
            have hsrc2 : s2x.src = s0.src := by rw [hms1]; exact hWs
            have hlt2 : (skipWhitespace s0).i < s0.src.length := hWs ▸ hlt
            clear hms hm
            apply (ih _).1
            have hL : (scanWhileF (s2x.src.length - s2x.i)
                (fun st => lexPeek st ≠ '\n' && !lexIsAtEnd st) s2x).src.length
                = s0.src.length := by rw [hsw1, hsrc2]
            rw [hL]
            omega
        · rw [if_neg hc]; simp
      · rw [dif_neg hlt]; simp
    · intro t s2 hsome
      simp only [nextTokenF] at hsome
      by_cases hlt : (skipWhitespace s0).i < (skipWhitespace s0).src.length
      · rw [dif_pos hlt] at hsome
        by_cases hc : (skipWhitespace s0).src.get ⟨(skipWhitespace s0).i, hlt⟩ = '/'
        · rw [if_pos hc] at hsome
          have hms := lexMatch_state '/' (lexAdv (skipWhitespace s0))
          rcases hm : lexMatch '/' (lexAdv (skipWhitespace s0)) with ⟨b, s2x⟩
          rw [hm] at hms hsome
          have hms1 : s2x.src = (lexAdv (skipWhitespace s0)).src := hms.1
          have hms2 : (skipWhitespace s0).i + 1 ≤ s2x.i := hms.2
          clear hms hm
          cases b
          · replace hsome : (some (⟨.SLASH, "/", s2x.line⟩, s2x) :
                Option (Token × LexState)) = some (t, s2) := hsome
            obtain ⟨ht, hs⟩ := Prod.mk.injEq .. |>.mp (Option.some.inj hsome)
            subst hs
            refine ⟨by rw [hms1]; exact hWs, Or.inr ?_⟩
            omega
          · replace hsome : nextTokenF n (scanWhileF (s2x.src.length - s2x.i)
                (fun st => lexPeek st ≠ '\n' && !lexIsAtEnd st) s2x) = some (t, s2) := hsome
            obtain ⟨hsw1, hsw2⟩ := scanWhileF_state (s2x.src.length - s2x.i)
              (fun st => lexPeek st ≠ '\n' && !lexIsAtEnd st) s2x
            obtain ⟨ha, hb⟩ := (ih _).2 t s2 hsome
            refine ⟨by rw [ha, hsw1, hms1]; exact hWs, ?_⟩
            rcases hb with heof | hstep
            · exact Or.inl heof
            · refine Or.inr ?_
              omega
        · rw [if_neg hc] at hsome
          have h' := Option.some.inj hsome
          have hd := dispatchTok_state
            ((skipWhitespace s0).src.get ⟨(skipWhitespace s0).i, hlt⟩)
            (lexAdv (skipWhitespace s0))
          have hs2 : (dispatchTok
              ((skipWhitespace s0).src.get ⟨(skipWhitespace s0).i, hlt⟩)
              (lexAdv (skipWhitespace s0))).2 = s2 := congrArg Prod.snd h'
          rw [hs2] at hd
          refine ⟨by rw [hd.1]; exact hWs, Or.inr ?_⟩
          have hi2 : (skipWhitespace s0).i + 1 ≤ s2.i := hd.2
          omega
      · rw [dif_neg hlt] at hsome
        obtain ⟨ht, hs⟩ := Prod.mk.injEq .. |>.mp (Option.some.inj hsome)
        subst hs
        exact ⟨hWs, Or.inl (by rw [← ht])⟩

/-- The wrapper fuel `length - i + 1` is sufficient, so `nextToken`
computes exactly what the fueled scan computes. -/
theorem nextToken_eq (s : LexState) :
    nextTokenF (s.src.length - s.i + 1) s = some (nextToken s) := by
  have h := (nextTokenF_props (s.src.length - s.i + 1) s).1 (by omega)
  unfold nextToken
  cases hx : nextTokenF (s.src.length - s.i + 1) s with
  | none => rw [hx] at h; cases h
  | some r => simp [hx]

/-- Progress: every call to `nextToken` either returns the
end-of-input sentinel or consumes at least one character. -/
theorem nextToken_progress (s : LexState) :
    (nextToken s).2.src = s.src ∧
    ((nextToken s).1.type = .END_OF_FILE ∨ s.i < (nextToken s).2.i) := by
  exact (nextTokenF_props (s.src.length - s.i + 1) s).2
    (nextToken s).1 (nextToken s).2 (by rw [nextToken_eq s])

/-- At end of input `nextToken` returns the end-of-input sentinel. -/
theorem nextToken_at_end (s : LexState) (h : s.src.length ≤ s.i) :
    (nextToken s).1.type = .END_OF_FILE := by
  have h0 : s.src.length - s.i = 0 := Nat.sub_eq_zero_of_le h
  have hsw : skipWhitespace s = s := by
    unfold skipWhitespace
    rw [h0]
    rfl
  have hlt : ¬ s.i < s.src.length := by omega
  have hF : nextTokenF (s.src.length - s.i + 1) s
      = some (⟨.END_OF_FILE, "", s.line⟩, s) := by
    rw [h0]
    show nextTokenF (0 + 1) s = _
    simp only [nextTokenF, hsw]
    rw [dif_neg hlt]
  have := nextToken_eq s
  rw [hF] at this
  have hh := Option.some.inj this
  rw [← hh]

/-- From any state, at most `length - i` further characters remain, so
within that many calls plus one the scan reaches end of input. -/
theorem lex_reaches_eof : ∀ (m : Nat) (s : LexState), s.src.length ≤ s.i + m →
    ∃ n, n ≤ m ∧ (lexNth s n).type = .END_OF_FILE := by
  intro m
  induction m with
  | zero =>
    intro s h
    exact ⟨0, Nat.le_refl 0, by
      simpa [lexNth, lexRun] using nextToken_at_end s (by omega)⟩
  | succ m ih =>
    intro s h
    rcases (nextToken_progress s).2 with heof | hlt
    · exact ⟨0, Nat.zero_le _, by simpa [lexNth, lexRun] using heof⟩
    · have hsrc := (nextToken_progress s).1
      have h2 : (nextToken s).2.src.length ≤ (nextToken s).2.i + m := by
        rw [hsrc]; omega
      obtain ⟨n, hn, he⟩ := ih (nextToken s).2 h2
      refine ⟨n + 1, by omega, ?_⟩
      simpa [lexNth, lexRun] using he

/-! ## Claim C9 -/

/-- C9: lexer totality.  Every call to `nextToken` either returns the
end-of-input sentinel or consumes at least one character of the source
(first conjunct), and for every finite input string repeated calls
reach the end-of-input sentinel after at most `length + 1` calls, so
the number of tokens before the sentinel is finite (second conjunct:
the sentinel appears at some call index `n ≤ length`, counting from
zero). -/
theorem lexer_totality :
    (∀ s : LexState, (nextToken s).1.type = .END_OF_FILE ∨ s.i < (nextToken s).2.i) ∧
    (∀ src : String, ∃ n, n ≤ src.data.length ∧
      (lexNth (initLex src) n).type = .END_OF_FILE) := by
  constructor
  · intro s
    exact (nextToken_progress s).2
  · intro src
    exact lex_reaches_eof src.data.length (initLex src) (by simp [initLex])

/-- C10 witness: `define` applied to a table that already binds the
name and to one that does not. -/
theorem symbolTable_define_spec_witness :
    stDefine [("a", ⟨"a", "class", true⟩)] ⟨"a", "", false⟩
      = (false, [("a", ⟨"a", "class", true⟩)]) ∧
    stDefine [("a", ⟨"a", "class", true⟩)] ⟨"b", "", false⟩
      = (true, [("a", ⟨"a", "class", true⟩), ("b", ⟨"b", "", false⟩)]) := by
  constructor
  · exact (symbolTable_define_spec [("a", ⟨"a", "class", true⟩)] ⟨"a", "", false⟩).1 rfl
  · exact ((symbolTable_define_spec [("a", ⟨"a", "class", true⟩)] ⟨"b", "", false⟩).2 rfl).1

end Trypillia
